/-
  Verification of the Cognify file-organizer core against its specification.

  The Rust sources are shallowly embedded: filesystem paths become lists of
  components, machine integers become Nat/Int, f32 vectors become lists of
  rationals, and the external services (Blake3, HTTP backends, the text
  chunker) enter as explicit function parameters.  Each definition mirrors
  one Rust item and is named after it.
-/
import Mathlib

/-! ## Shared path and string helpers -/

/-- A filesystem path, modelled as its list of components (in the sense of
`Path::components`).  The mover's base path is assumed already canonical. -/
abbrev FsPath := List String

/-- Rust `Path::starts_with`: component-wise prefix test. -/
def path_starts_with (p base : FsPath) : Bool :=
  base.isPrefixOf p

/-- Rust `str::contains` (substring containment of `pat` in `s`),
on the character level. -/
def string_contains (s pat : String) : Bool :=
  decide (pat.toList <:+: s.toList)

/-- Rust `char::is_whitespace`: the Unicode `White_Space` code points. -/
def rust_is_whitespace (c : Char) : Bool :=
  c.val = 0x09 || c.val = 0x0A || c.val = 0x0B || c.val = 0x0C || c.val = 0x0D ||
  c.val = 0x20 || c.val = 0x85 || c.val = 0xA0 || c.val = 0x1680 ||
  (0x2000 ≤ c.val && c.val ≤ 0x200A) || c.val = 0x2028 || c.val = 0x2029 ||
  c.val = 0x202F || c.val = 0x205F || c.val = 0x3000

/-- Rust `str::trim`: drop leading and trailing whitespace characters. -/
def rust_trim (s : String) : String :=
  String.mk (((s.toList.dropWhile fun c => rust_is_whitespace c).reverse.dropWhile
    fun c => rust_is_whitespace c).reverse)

/-- Rust `str::len`: the length in UTF-8 bytes. -/
def rust_len (s : String) : Nat :=
  s.utf8ByteSize

/-- Rust `str::to_lowercase`, on the character level (faithful on ASCII;
Unicode multi-character lowerings are out of the model). -/
def rust_to_lower (s : String) : String :=
  String.mk (s.toList.map Char.toLower)

/-- Splitting recursion for `rust_split`. -/
def split_char_aux (p : Char → Bool) : List Char → List Char → List String
  | [], cur => [String.mk cur.reverse]
  | c :: rest, cur =>
    if p c then String.mk cur.reverse :: split_char_aux p rest []
    else split_char_aux p rest (c :: cur)

/-- Rust `str::split` by a character predicate: split at every matching
character, keeping empty pieces. -/
def rust_split (s : String) (p : Char → Bool) : List String :=
  split_char_aux p s.toList []

/-! ## organizer/preview.rs and organizer/mover.rs (claims C1, C2) -/

/-- One entry of `PreviewTree::files_to_move`. -/
structure MoveOperation where
  source : FsPath
  destination : FsPath
deriving Repr, DecidableEq

/-- The planned mutation of the filesystem (`organizer/preview.rs`).
`CreateDirOperation` is a bare path wrapper in the source and is inlined. -/
structure PreviewTree where
  directories_to_create : List FsPath
  files_to_move : List MoveOperation
deriving Repr, DecidableEq

/-- The directory checks of `FileMover::plan_moves`, in source order. -/
def check_dirs (base : FsPath) : List FsPath → Except String Unit
  | [] => Except.ok ()
  | d :: rest =>
    if ! path_starts_with d base then
      Except.error "Directory creation outside base path"
    else check_dirs base rest

/-- The move checks of `FileMover::plan_moves`, in source order: for each
move the source is checked, then the destination. -/
def check_moves (base : FsPath) : List MoveOperation → Except String Unit
  | [] => Except.ok ()
  | mv :: rest =>
    if ! path_starts_with mv.source base then
      Except.error "Source file outside base path"
    else if ! path_starts_with mv.destination base then
      Except.error "Destination outside base path"
    else check_moves base rest

/-- `FileMover::plan_moves`: validate every operation of the preview against
the (canonicalized) base path, returning the preview unchanged on success.
The `?` error propagation of the source desugars to monadic bind. -/
def plan_moves (base : FsPath) (preview : PreviewTree) : Except String PreviewTree :=
  (check_dirs base preview.directories_to_create).bind fun _ =>
    (check_moves base preview.files_to_move).bind fun _ =>
      Except.ok preview

/-- A filesystem write issued by the mover. -/
inductive WriteOp where
  | createDir (path : FsPath)
  | rename (source destination : FsPath)
deriving Repr, DecidableEq

/-- `FileMover::execute`, modelled as the sequence of filesystem writes it
issues: nothing on a dry run; otherwise every directory creation first, then
for each move a `create_dir_all` of the destination's parent followed by the
`rename`.  The function body contains no validation of any kind; it returns
`Ok` unless an individual filesystem call fails. -/
def execute (preview : PreviewTree) (dry_run : Bool) : List WriteOp :=
  if dry_run then []
  else
    preview.directories_to_create.map WriteOp.createDir ++
    preview.files_to_move.flatMap (fun mv =>
      (if mv.destination.isEmpty then []
       else [WriteOp.createDir mv.destination.dropLast]) ++
      [WriteOp.rename mv.source mv.destination])

/-! ## indexer/meili.rs: generate_doc_id (claim C10) -/

/-- A `SystemTime`, as signed nanoseconds relative to the UNIX epoch
(negative for pre-epoch times). -/
abbrev RustSystemTime := Int

/-- The expression `updated_at.duration_since(UNIX_EPOCH).unwrap_or_default().as_secs()`:
whole seconds for times at or after the epoch, and 0 (the default, zero
duration) for every pre-epoch time. -/
def epoch_secs (t : RustSystemTime) : Nat :=
  if t < 0 then 0 else t.toNat / 1000000000

/-- `generate_doc_id`.  Blake3 is not re-implemented; the parameter
`blake3_hex` stands for the map from input string to 64-character hex digest. -/
def generate_doc_id (blake3_hex : String → String) (file_hash : String)
    (updated_at : RustSystemTime) : String :=
  let timestamp := epoch_secs updated_at
  let combined := file_hash ++ ":" ++ toString timestamp
  let hash := blake3_hex combined
  "doc_" ++ hash.take 32

/-! ## indexer/meili.rs: sync_index (claim C3) -/

/-- The fields of the Meilisearch `Document` that the sync protocol reads. -/
structure Document where
  id : String
  path : String
  file_hash : String
deriving Repr, DecidableEq

/-- The fields of `FileMeta` that the sync protocol reads (the path is the
`to_string_lossy` rendering used as the map key). -/
structure SyncFileMeta where
  path : String
  hash : String
deriving Repr, DecidableEq

/-- The counters returned by `sync_index`. -/
structure SyncStats where
  updated : Nat
  deleted : Nat
  unchanged : Nat
deriving Repr, DecidableEq

/-- `MeilisearchIndexer::delete_missing_files`: collect the ids of every
indexed document whose path is not among the existing paths, issue one batch
delete for them, and return how many were deleted.  `docs` is the (up to
10000 document) result of the empty-query search. -/
def delete_missing_files (docs : List Document) (existing_paths : List String) : Nat :=
  ((docs.filter fun d => ! existing_paths.contains d.path).map Document.id).length

/-- The lookup in `indexed_by_path`: the map is collected from an iterator of
`(path, document)` pairs, so for duplicate paths the last inserted document
wins. -/
def indexed_by_path (docs : List Document) (p : String) : Option Document :=
  docs.reverse.find? fun d => d.path = p

/-- `MeilisearchIndexer::sync_index`.  Both searches are modelled as
returning the same document list `docs`: the batch delete issued by
`delete_missing_files` is an asynchronous Meilisearch task, and the counters
are unaffected either way because every deleted document's path lies outside
`current_paths` and is therefore never looked up. -/
def sync_index (docs : List Document) (current_files : List SyncFileMeta) : SyncStats :=
  let current_paths := current_files.map SyncFileMeta.path
  let deleted := delete_missing_files docs current_paths
  let counts := current_files.foldl
    (fun (uc : Nat × Nat) f =>
      match indexed_by_path docs f.path with
      | some d => if d.file_hash = f.hash then (uc.1 + 1, uc.2) else (uc.1, uc.2 + 1)
      | none => uc)
    (0, 0)
  { updated := counts.2, deleted := deleted, unchanged := counts.1 }

/-! ## main.rs organize command, planning phase (claim C2) -/

/-- The per-file data the organize planner works from once the analysis
phase (hash, text, metadata, tags, embedding) has run: the source path, the
protected-structure classification of `is_inside_protected_structure_with_base`,
and the destination `dir.join(folder_path).join(file_name)` computed from the
generated folder path.  Tags and embedding do not influence whether a move is
planned and are omitted. -/
structure OrganizeFile where
  path : FsPath
  is_protected : Bool
  dest : FsPath
deriving Repr, DecidableEq

/-- The protected-file branch of the organize command (main.rs:734-764): a
`FilePlan` (source, destination) is pushed only for a non-protected file
whose path differs from its destination; protected files are only counted. -/
def file_plans (files : List OrganizeFile) : List (FsPath × FsPath) :=
  files.foldl
    (fun plans f =>
      if f.is_protected = false ∧ f.path ≠ f.dest then plans ++ [(f.path, f.dest)]
      else plans)
    []

/-- The cluster-override phase (main.rs:796-827): for every plan index the
folder path, and with it the destination, may be rewritten from the cluster's
dominant tags; the source is never touched.  The rewriting rule (cluster
depth, dominant-tag count) is abstracted into the `override` parameter, which
covers every behaviour of that code. -/
def apply_cluster_override (override : Nat → FsPath × FsPath → FsPath) :
    Nat → List (FsPath × FsPath) → List (FsPath × FsPath)
  | _, [] => []
  | i, plan :: rest =>
    (plan.1, override i plan) :: apply_cluster_override override (i + 1) rest

/-- The move list the organize command hands to the mover.  The grouping by
folder path and the sorting of main.rs PHASE 2/4 permute the plans but add
and drop none; since every property proved below is invariant under
permutation of the move list, the regrouping is omitted. -/
def organize_moves (files : List OrganizeFile)
    (override : Nat → FsPath × FsPath → FsPath) : List (FsPath × FsPath) :=
  apply_cluster_override override 0 (file_plans files)

/-- One `fs::rename`: if the source path exists it is removed and the
destination path appears; a rename whose source is absent fails and changes
nothing.  The state is the list of existing file paths. -/
def apply_move (s : List FsPath) (mv : FsPath × FsPath) : List FsPath :=
  if mv.1 ∈ s then s.erase mv.1 ++ [mv.2] else s

/-- Executing a move list in order. -/
def apply_moves (s : List FsPath) (mvs : List (FsPath × FsPath)) : List FsPath :=
  mvs.foldl apply_move s

/-- Iterating whole organize runs: each run is the analyzed file list
together with its cluster-override behaviour, and its planned moves are
applied to the state. -/
def run_organize (s : List FsPath)
    (runs : List (List OrganizeFile × (Nat → FsPath × FsPath → FsPath))) : List FsPath :=
  runs.foldl (fun st r => apply_moves st (organize_moves r.1 r.2)) s

/-! ## embeddings/multi_ollama.rs, local.rs, tei.rs (claims C5, C9) -/

/-- The outcome classes of `MultiOllamaEmbeddingProvider::compute_embedding`.
`allFailed` carries the index of the last replica tried and its error,
mirroring the "All Ollama servers failed. Last error from ..." bail. -/
inductive EmbError where
  | emptyInput
  | tooShort (len : Nat)
  | noServers
  | allFailed (lastUrl : Nat) (lastErr : String)
deriving Repr, DecidableEq

/-- One replica's behaviour for the duration of one call: the result of
`try_compute_with_url` at each URL index (connection, HTTP status, JSON and
empty-embedding failures all collapse into `Except.error`). -/
abbrev ReplicaBehaviour := Nat → Except String (List ℚ)

/-- The fallback loop `for offset in 1..self.urls.len()`: try the remaining
offsets in rotation order, remembering the last `(url index, error)`. -/
def fallback_scan (try_url : ReplicaBehaviour) (n index : Nat) :
    List Nat → Nat × String → Except EmbError (List ℚ)
  | [], last => Except.error (EmbError.allFailed last.1 last.2)
  | offset :: rest, last =>
    let fallback_index := (index + offset) % n
    match try_url fallback_index with
    | Except.ok embedding => Except.ok embedding
    | Except.error e => fallback_scan try_url n index rest (fallback_index, e)

/-- `MultiOllamaEmbeddingProvider::compute_embedding`: validate the content,
pick the round-robin replica (`counter` is the value the atomic counter had
for this call), and on failure fail over through the other replicas in
rotation order. -/
def compute_embedding_multi (try_url : ReplicaBehaviour) (n : Nat) (counter : Nat)
    (content : String) : Except EmbError (List ℚ) :=
  let c := rust_trim content
  if c.isEmpty then Except.error EmbError.emptyInput
  else if rust_len c < 3 then Except.error (EmbError.tooShort (rust_len c))
  else if n = 0 then Except.error EmbError.noServers
  else
    let index := counter % n
    match try_url index with
    | Except.ok embedding => Except.ok embedding
    | Except.error e => fallback_scan try_url n index (List.range' 1 (n - 1)) (index, e)

/-- `LocalEmbeddingProvider::compute_embedding`, with the HTTP call as the
`backend` parameter; the second component records every prompt sent to the
backend.  (The runtime dimension update does not affect the result value and
is omitted.) -/
def compute_embedding_local (backend : String → Except String (List ℚ)) (content : String) :
    Except String (List ℚ) × List String :=
  let c := rust_trim content
  if c.isEmpty then (Except.error "Cannot generate embedding for empty content", [])
  else if rust_len c < 3 then (Except.error "Content too short to generate embedding", [])
  else
    match backend c with
    | Except.error e => (Except.error e, [c])
    | Except.ok embedding =>
      if embedding.isEmpty then (Except.error "Ollama returned empty embedding", [c])
      else (Except.ok embedding, [c])

/-- `TeiEmbeddingProvider::compute_embedding`: the only input validation is
the emptiness check after trimming; there is no minimum-length check. -/
def compute_embedding_tei (backend : String → Except String (List ℚ)) (content : String) :
    Except String (List ℚ) × List String :=
  let c := rust_trim content
  if c.isEmpty then (Except.error "Cannot generate embedding for empty content", [])
  else
    match backend c with
    | Except.error e => (Except.error e, [c])
    | Except.ok embedding =>
      if embedding.isEmpty then (Except.error "TEI returned empty embedding array", [c])
      else (Except.ok embedding, [c])

/-- Whether an `Except` is an error. -/
def is_err {ε α : Type} : Except ε α → Bool
  | Except.error _ => true
  | Except.ok _ => false

/-! ## embeddings/trait.rs: compute_chunked_embedding (claim C6) -/

/-- The overlap computation `(max_tokens / 10).max(20).min(50)`. -/
def chunk_overlap (max_tokens : Nat) : Nat :=
  min (max (max_tokens / 10) 20) 50

/-- The chunk-embedding loop of `compute_chunked_embedding`: embed each
chunk, failing on a backend error, an empty embedding, or a dimension
mismatch, and collect the chunk embeddings in order. -/
def embed_chunks (embed : String → Except String (List ℚ)) (dimension : Nat) :
    List String → Except String (List (List ℚ))
  | [] => Except.ok []
  | chunk :: rest =>
    match embed chunk with
    | Except.error e => Except.error e
    | Except.ok embedding =>
      if embedding.isEmpty then Except.error "Empty embedding returned for chunk"
      else if embedding.length ≠ dimension then
        Except.error "chunk embedding dimension mismatch"
      else
        match embed_chunks embed dimension rest with
        | Except.error e => Except.error e
        | Except.ok rest_embeddings => Except.ok (embedding :: rest_embeddings)

/-- The accumulation `for (i, value) in embedding { combined[i] += value }`;
an embedding longer than `combined` would panic in Rust, which is unreachable
after the dimension check, and the model ignores the excess. -/
def add_into (combined embedding : List ℚ) : List ℚ :=
  combined.zipWith (· + ·) embedding ++ combined.drop embedding.length

/-- The mean pooling at the end of `compute_chunked_embedding`: sum all
chunk embeddings into a zero vector of length `dimension`, then divide each
component by the number of chunks. -/
def mean_pool (dimension : Nat) (chunk_embeddings : List (List ℚ)) : List ℚ :=
  let combined := chunk_embeddings.foldl add_into (List.replicate dimension 0)
  let num_chunks : ℚ := chunk_embeddings.length
  combined.map fun v => v / num_chunks

/-- `EmbeddingProvider::compute_chunked_embedding`.  The function
`utils::chunk_text_for_embedding` is not present in the sources (only this
call site is); it enters as the parameter `chunk_text`, and every statement
below quantifies over the chunk list it returns. -/
def compute_chunked_embedding (embed : String → Except String (List ℚ)) (dimension : Nat)
    (chunk_text : String → Nat → Nat → List String)
    (content : String) (max_tokens : Nat) : Except String (List ℚ) :=
  let estimated_tokens := rust_len content / 4
  if estimated_tokens ≤ max_tokens then embed content
  else
    let overlap_tokens := chunk_overlap max_tokens
    let chunks := chunk_text content max_tokens overlap_tokens
    if chunks.isEmpty then Except.error "No chunks generated from content"
    else if chunks.length = 1 then embed chunks.head!
    else
      match embed_chunks embed dimension chunks with
      | Except.error e => Except.error e
      | Except.ok chunk_embeddings => Except.ok (mean_pool dimension chunk_embeddings)

/-! ## organizer/context.rs and file/trait.rs: tag generation (claim C7) -/

/-- `COMMON_DIRECTORY_NAMES` from constants.rs. -/
def COMMON_DIRECTORY_NAMES : List String :=
  ["documents", "downloads", "desktop", "pictures", "music", "videos", "home",
   "user", "users", "tmp", "temp", "cache", "data", "files", "folder",
   "folders", "file", "dir", "directory", "src", "lib", "code", "projects"]

/-- `clean_tag`: keep alphanumeric-or-hyphen characters (the Rust
`char::is_alphanumeric` is Unicode-aware; the model uses its ASCII
restriction), then trim hyphens from both ends. -/
def clean_tag (s : String) : String :=
  let filtered := s.toList.filter fun c => c.isAlphanum || c = '-'
  String.mk (((filtered.dropWhile fun c => c = '-').reverse.dropWhile
    fun c => c = '-').reverse)

/-- `split_camel_case`: cut before each uppercase character, lowercasing
everything; an input yielding no parts is returned whole. -/
def split_camel_case (s : String) : List String :=
  let out := s.toList.foldl
    (fun (acc : List String × List Char) ch =>
      if ch.isUpper ∧ ¬ acc.2.isEmpty then (acc.1 ++ [String.mk acc.2], [ch.toLower])
      else (acc.1, acc.2 ++ [ch.toLower]))
    ([], [])
  let parts := if out.2.isEmpty then out.1 else out.1 ++ [String.mk out.2]
  if parts.isEmpty then [s] else parts

/-- `extract_tags_from_string`: split on whitespace, underscore, hyphen and
dot; clean each part, keep cleaned parts of 2-30 bytes, split camelCase and
keep camel parts of at least 2 bytes, lowercased; if nothing survives, try
the cleaned whole string. -/
def extract_tags_from_string (s : String) : List String :=
  let parts := (rust_split s fun c =>
    rust_is_whitespace c || c = '_' || c = '-' || c = '.').filter
    fun part => ¬ part.isEmpty ∧ 1 < rust_len part
  let tags := parts.foldl
    (fun tags part =>
      let cleaned := clean_tag part
      if 2 ≤ rust_len cleaned ∧ rust_len cleaned ≤ 30 then
        tags ++ ((split_camel_case cleaned).filter
          fun cp => 2 ≤ rust_len cp).map rust_to_lower
      else tags)
    []
  if tags.isEmpty then
    let cleaned := clean_tag s
    if 2 ≤ rust_len cleaned ∧ rust_len cleaned ≤ 30 then [rust_to_lower cleaned] else []
  else tags

/-- `is_common_directory`. -/
def is_common_directory (dir : String) : Bool :=
  COMMON_DIRECTORY_NAMES.contains (rust_to_lower dir)

/-- `is_username_directory`: 2-8 bytes, alphanumeric/hyphen/underscore, no
uppercase, and not a common directory name. -/
def is_username_directory (dir : String) : Bool :=
  if is_common_directory dir then false
  else
    decide (2 ≤ rust_len dir) && decide (rust_len dir ≤ 8) &&
    dir.toList.all (fun c => c.isAlphanum || c = '-' || c = '_') &&
    ! dir.toList.any (fun c => c.isUpper)

/-- The path context `extract_tags_from_path` reads: the file stem, the
`file_name` of each ancestor (nearest first), and the lowercased login name
from the USER/USERNAME environment. -/
structure PathContext where
  file_stem : Option String
  ancestor_dir_names : List String
  current_user : String

/-- `extract_tags_from_path`: stem tags, then tags from each ancestor
directory name that is not common, not the user name, not `users`/`home` and
not username-like; deduplicated preserving first occurrence. -/
def extract_tags_from_path (ctx : PathContext) : List String :=
  let stem_tags := match ctx.file_stem with
    | some s => extract_tags_from_string s
    | none => []
  let dir_tags := ctx.ancestor_dir_names.foldl
    (fun tags dir_name =>
      let dir_lower := rust_to_lower dir_name
      if ¬ is_common_directory dir_lower = true ∧ dir_lower ≠ ctx.current_user ∧
          dir_lower ≠ "users" ∧ dir_lower ≠ "home" ∧
          ¬ is_username_directory dir_lower = true then
        tags ++ extract_tags_from_string dir_name
      else tags)
    []
  (stem_tags ++ dir_tags).foldl (fun acc t => if t ∈ acc then acc else acc ++ [t]) []

/-- The keyword → tag dictionary of `extract_tags_from_content`.  The Rust
code iterates a `HashMap` built from this list, in unspecified order; the
theorems below therefore take the iteration order as a parameter. -/
def keyword_mappings : List (String × String) :=
  [("todo", "task"), ("meeting", "calendar"), ("notes", "documentation"),
   ("code", "programming"), ("bug", "issue"), ("feature", "enhancement"),
   ("test", "testing"), ("api", "integration"), ("config", "configuration"),
   ("readme", "documentation"), ("invoice", "finance"), ("receipt", "finance"),
   ("contract", "legal"), ("nda", "legal"), ("resume", "career"), ("cv", "career")]

/-- `extract_tags_from_content`: one tag per dictionary entry whose keyword
occurs in the lowercased content, in iteration order. -/
def extract_tags_from_content (order : List (String × String)) (content : String) :
    List String :=
  let content_lower := rust_to_lower content
  (order.filter fun kv => string_contains content_lower kv.1).map Prod.snd

/-- Duplicate removal preserving first occurrence (the `seen` HashSet
filter). -/
def dedup_preserving (l : List String) : List String :=
  l.foldl (fun acc t => if t ∈ acc then acc else acc ++ [t]) []

/-- The concatenation built by `generate_tags_default` before
deduplication: path tags, content-keyword tags, the lowercased extension. -/
def inferred_tags (ctx : PathContext) (extension : Option String)
    (content : String) (keyword_order : List (String × String)) : List String :=
  extract_tags_from_path ctx ++
    extract_tags_from_content keyword_order content ++
    (match extension with | some ext => [rust_to_lower ext] | none => [])

/-- `generate_tags_default`: the inferred tags, deduplicated preserving
order; fall back to the single tag "unknown" when nothing was inferred. -/
def generate_tags_default (ctx : PathContext) (extension : Option String)
    (content : String) (keyword_order : List (String × String)) : List String :=
  let unique_tags := dedup_preserving (inferred_tags ctx extension content keyword_order)
  if unique_tags.isEmpty then ["unknown"] else unique_tags

/-- The shape of the parsed JSON value, as far as `JsonFile::generate_tags`
inspects it. -/
inductive JsonShape where
  | object (keys : List String)
  | array
  | other
deriving Repr, DecidableEq

/-- The guarded pushes of `JsonFile::generate_tags`. -/
def push_if_missing (tags : List String) (t : String) : List String :=
  if tags.contains t then tags else tags ++ [t]

/-- `JsonFile::generate_tags`: the default tags, then "json", then
shape-derived tags, each added only if absent.  `parsed` is `none` when
`serde_json::from_str` fails. -/
def json_generate_tags (ctx : PathContext) (extension : Option String) (content : String)
    (keyword_order : List (String × String)) (parsed : Option JsonShape) : List String :=
  let tags := generate_tags_default ctx extension content keyword_order
  let tags := push_if_missing tags "json"
  match parsed with
  | some (JsonShape.object keys) =>
    let tags := if keys.contains "package" || keys.contains "dependencies" then
      push_if_missing tags "package" else tags
    let tags := if keys.contains "version" && keys.contains "name" then
      push_if_missing tags "config" else tags
    let tags := if keys.contains "scripts" || keys.contains "devDependencies" then
      push_if_missing tags "nodejs" else tags
    let tags := if keys.contains "tasks" || keys.contains "version" then
      push_if_missing tags "build" else tags
    tags
  | some JsonShape.array => push_if_missing tags "list"
  | some JsonShape.other => tags
  | none => tags

/-! ## organizer/cluster.rs: dominant tags (claim C8) -/

/-- Stable insertion for descending-by-count order: the new element goes
before the first strictly smaller count, after existing equal counts. -/
def insert_desc (x : String × Nat) : List (String × Nat) → List (String × Nat)
  | [] => [x]
  | y :: rest => if y.2 ≤ x.2 then x :: y :: rest else y :: insert_desc x rest

/-- The stable `sort_by_key(Reverse(count))`: a stable sort into descending
count order. -/
def sort_by_count_desc : List (String × Nat) → List (String × Nat)
  | [] => []
  | x :: rest => insert_desc x (sort_by_count_desc rest)

/-- The count of `tag` over all members' tag lists (the value `tag_counts`
associates with `tag`). -/
def tag_count (member_tags : List (List String)) (t : String) : Nat :=
  member_tags.foldl (fun n tags => n + tags.count t) 0

/-- What `tag_counts.into_iter()` may yield: some enumeration of the map
from each occurring tag to its count, with distinct keys, in an unspecified
order. -/
def is_tag_count_enum (entries : List (String × Nat)) (member_tags : List (List String)) :
    Prop :=
  (entries.map Prod.fst).Nodup ∧
  (∀ e ∈ entries, e.2 = tag_count member_tags e.1 ∧ e.1 ∈ member_tags.foldl (· ++ ·) []) ∧
  (∀ t ∈ member_tags.foldl (· ++ ·) [], t ∈ entries.map Prod.fst)

instance (entries : List (String × Nat)) (member_tags : List (List String)) :
    Decidable (is_tag_count_enum entries member_tags) := by
  unfold is_tag_count_enum
  infer_instance

/-- The dominant-tag recomputation of `cluster_files` (cluster.rs:77-95):
stable-sort the enumerated counts by descending count and keep the first
three tags. -/
def recompute_dominant_tags (entries : List (String × Nat)) : List String :=
  ((sort_by_count_desc entries).take 3).map Prod.fst

/-! ## organizer/generator.rs: from_tags_hierarchical (claim C4) -/

/-- `TOP_LEVEL_CATEGORIES` from constants.rs. -/
def TOP_LEVEL_CATEGORIES : List String :=
  ["document", "image", "video", "audio", "archive", "spreadsheet", "programming",
   "task", "calendar", "financial", "reporting", "configuration", "testing",
   "integration", "enhancement", "issue", "notes", "draft", "meeting", "project",
   "work", "personal"]

/-- `MID_LEVEL_CATEGORIES` from constants.rs. -/
def MID_LEVEL_CATEGORIES : List String :=
  ["rust", "python", "javascript", "java", "go", "cpp", "typescript",
   "invoice", "receipt", "statement", "bill", "payment", "tax",
   "report", "minutes", "agenda", "proposal", "contract",
   "meeting", "notes", "tutorial", "guide", "documentation", "reference",
   "test", "spec", "design", "plan", "draft", "final"]

/-- `SPECIFIC_TAGS` from constants.rs. -/
def SPECIFIC_TAGS : List String :=
  ["invoice", "receipt", "statement", "bill", "payment", "meeting", "notes",
   "minutes", "agenda", "tutorial", "guide", "howto", "readme", "changelog",
   "january", "february", "march", "april", "may", "june", "july", "august",
   "september", "october", "november", "december", "2023", "2024", "2025"]

/-- `FolderGenerator::sanitize_tag_name`: lowercase, spaces and underscores
to hyphens, keep only alphanumeric-or-hyphen characters.  No trimming of
leading or trailing hyphens is performed. -/
def sanitize_tag_name (tag : String) : String :=
  String.mk (((tag.toList.map Char.toLower).map fun c =>
    if c = ' ' ∨ c = '_' then '-' else c).filter fun c => c.isAlphanum || c = '-')

/-- `FolderGenerator::is_similar_to_any`: equality or substring containment
either way against any already-placed component. -/
def is_similar_to_any (tag : String) (components : List String) : Bool :=
  components.any fun comp =>
    comp = tag || string_contains tag comp || string_contains comp tag

/-- The category membership test of `categorize_tags_enhanced`: equality or
substring containment either way against the list of category names. -/
def matches_any_category (cats : List String) (tag_lower : String) : Bool :=
  cats.any fun cat =>
    tag_lower = cat || string_contains tag_lower cat || string_contains cat tag_lower

/-- `FolderGenerator::categorize_tags_enhanced`: assign each counted tag to
the primary / secondary / tertiary bucket, force a primary from the first
tag if none was found, stable-sort the secondary and tertiary buckets by
descending count, and truncate them to 3 and 2 entries. -/
def categorize_tags_enhanced (sorted_tags : List (String × Nat)) :
    List (String × Nat) × List (String × Nat) × List (String × Nat) :=
  let acc := sorted_tags.foldl
    (fun (acc : List (String × Nat) × List (String × Nat) × List (String × Nat)) tc =>
      let primary := acc.1
      let secondary := acc.2.1
      let tertiary := acc.2.2
      let tag_lower := rust_to_lower tc.1
      let is_top_level := matches_any_category TOP_LEVEL_CATEGORIES tag_lower
      let is_mid_level := matches_any_category MID_LEVEL_CATEGORIES tag_lower
      let is_specific := matches_any_category SPECIFIC_TAGS tag_lower
      if is_top_level ∧ primary.isEmpty then (primary ++ [tc], secondary, tertiary)
      else if is_mid_level then
        if primary.isEmpty then (primary ++ [tc], secondary, tertiary)
        else (primary, secondary ++ [tc], tertiary)
      else if is_specific then (primary, secondary, tertiary ++ [tc])
      else if primary.isEmpty then (primary ++ [tc], secondary, tertiary)
      else if secondary.length < 3 then (primary, secondary ++ [tc], tertiary)
      else (primary, secondary, tertiary ++ [tc]))
    ([], [], [])
  let primary := if acc.1.isEmpty ∧ ¬ sorted_tags.isEmpty then
      acc.1 ++ sorted_tags.take 1
    else acc.1
  ((primary, (sort_by_count_desc acc.2.1).take 3, (sort_by_count_desc acc.2.2).take 2) :
    List (String × Nat) × List (String × Nat) × List (String × Nat))

/-- One step of the secondary / tertiary placement loops: sanitize the tag
and append it unless it is similar to an already-placed component. -/
def add_component (comps : List String) (tc : String × Nat) : List String :=
  let sanitized := sanitize_tag_name tc.1
  if is_similar_to_any sanitized comps then comps else comps ++ [sanitized]

/-- One step of the remaining-tags fill loop (generator.rs:77-88): skip used
tags, sanitize, and append unless similar, recording the tag as used.  The
loop's `remaining_depth == 0` break can never fire because `remaining_depth`
is computed once before the loop and is positive when the loop is entered. -/
def filler_step (comps_used : List String × List String) (tc : String × Nat) :
    List String × List String :=
  if tc.1 ∈ comps_used.2 then comps_used
  else
    let sanitized := sanitize_tag_name tc.1
    if is_similar_to_any sanitized comps_used.1 then comps_used
    else (comps_used.1 ++ [sanitized], comps_used.2 ++ [tc.1])

/-- Level 1 of the path build: the sanitized most frequent primary tag,
pushed without any depth or similarity check. -/
def comps_stage0 (primary : List (String × Nat)) : List String :=
  match primary with
  | [] => []
  | p :: _ => [sanitize_tag_name p.1]

/-- Level 2: up to `min (max_depth − placed) 3` secondary tags. -/
def comps_stage1 (secondary : List (String × Nat)) (max_depth : Nat)
    (comps0 : List String) : List String :=
  (secondary.take (min (max_depth - comps0.length) 3)).foldl add_component comps0

/-- Level 3: up to `min (max_depth − placed) 2` tertiary tags. -/
def comps_stage2 (tertiary : List (String × Nat)) (max_depth : Nat)
    (comps1 : List String) : List String :=
  (tertiary.take (min (max_depth - comps1.length) 2)).foldl add_component comps1

/-- The remaining-tags fill: entered only when room remains and some counted
tag landed in none of the kept buckets; the loop itself never re-checks the
remaining depth, so it appends every remaining dissimilar tag. -/
def comps_stage3 (sorted_tags primary secondary tertiary : List (String × Nat))
    (max_depth : Nat) (comps2 : List String) : List String :=
  if 0 < max_depth - comps2.length ∧
      primary.length + secondary.length + tertiary.length < sorted_tags.length then
    (sorted_tags.foldl filler_step
      (comps2, (primary ++ secondary ++ tertiary).map Prod.fst)).1
  else comps2

/-- `FolderGenerator::from_tags_hierarchical` on the count-sorted tag list:
the four placement stages, then the `PathBuf` build — pushing an empty
component contributes no path component — with the `uncategorized` fallback
when the built path is empty. -/
def from_tags_hierarchical_core (sorted_tags : List (String × Nat)) (max_depth : Nat) :
    List String :=
  let cats := categorize_tags_enhanced sorted_tags
  let comps := comps_stage3 sorted_tags cats.1 cats.2.1 cats.2.2 max_depth
    (comps_stage2 cats.2.2 max_depth (comps_stage1 cats.2.1 max_depth (comps_stage0 cats.1)))
  let path_components := comps.filter fun c => ¬ c.isEmpty
  if path_components.isEmpty then ["uncategorized"] else path_components

/-- The tag-frequency map of `from_tags_hierarchical`.  The Rust `HashMap`
iterates in unspecified order; the model enumerates keys in first-occurrence
order.  The subsequent stable sort makes the result independent of the
enumeration whenever the counts are pairwise distinct (as in the concrete
inputs below). -/
def tag_counts (tags : List String) : List (String × Nat) :=
  (dedup_preserving tags).map fun t => (t, tags.count t)

/-- `FolderGenerator::from_tags_hierarchical`, as the list of components of
the returned `PathBuf`. -/
def from_tags_hierarchical (tags : List String) (max_depth : Nat) : List String :=
  if tags.isEmpty then ["uncategorized"]
  else from_tags_hierarchical_core (sort_by_count_desc (tag_counts tags)) max_depth

/-- The character discipline of a sanitized path component: only
alphanumeric-or-hyphen characters and nothing uppercase. -/
def good_component (c : String) : Prop :=
  ∀ ch ∈ c.toList, (ch.isAlphanum || ch = '-') = true ∧ ch.isUpper = false

instance (c : String) : Decidable (good_component c) := by
  unfold good_component
  infer_instance

/-- Concrete tag multiset for claim C4: eight distinct tags with pairwise
distinct multiplicities 8 … 1, so every HashMap enumeration sorts to the same
descending list. -/
def c4_tags : List String :=
  List.replicate 8 "zqzq" ++ List.replicate 7 "zqzqzq" ++ List.replicate 6 "vjvjvj" ++
  List.replicate 5 "wfwfwf" ++ List.replicate 4 "zqzqzqzq" ++ List.replicate 3 "kxkxkx" ++
  List.replicate 2 "-mtmtmt" ++ ["rprprp"]

/-- Concrete data for claim C1: a preview whose single move has a source
outside the base directory. -/
def c1_base : FsPath := ["base"]

/-- The offending preview tree for claim C1. -/
def c1_preview : PreviewTree where
  directories_to_create := []
  files_to_move := [{ source := ["outside", "f.txt"], destination := ["base", "f.txt"] }]

/-- Concrete data for claim C3: two versions (version-addressed ids) of the
same path coexist in the index. -/
def c3_docs : List Document :=
  [{ id := "doc_v1", path := "/base/a.txt", file_hash := "h1" },
   { id := "doc_v2", path := "/base/a.txt", file_hash := "h2" }]

/-! ### Theorems -/

/-! #### Helper lemmas -/

theorem except_error_bind {ε α β : Type} (e : ε) (f : α → Except ε β) :
    (Except.error e).bind f = Except.error e := rfl

theorem except_ok_bind {ε α β : Type} (a : α) (f : α → Except ε β) :
    (Except.ok a).bind f = f a := rfl

theorem check_dirs_ok_iff (base : FsPath) (l : List FsPath) :
    check_dirs base l = Except.ok () ↔ ∀ d ∈ l, path_starts_with d base = true := by
  induction l with
  | nil => simp [check_dirs]
  | cons d rest ih =>
    cases h : path_starts_with d base with
    | true => simp [check_dirs, h, ih]
    | false => simp [check_dirs, h]

theorem check_moves_ok_iff (base : FsPath) (l : List MoveOperation) :
    check_moves base l = Except.ok () ↔
      ∀ mv ∈ l, path_starts_with mv.source base = true ∧
        path_starts_with mv.destination base = true := by
  induction l with
  | nil => simp [check_moves]
  | cons mv rest ih =>
    cases hs : path_starts_with mv.source base with
    | false => simp [check_moves, hs]
    | true =>
      cases hd : path_starts_with mv.destination base with
      | false => simp [check_moves, hs, hd]
      | true => simp [check_moves, hs, hd, ih]

theorem plan_moves_ok_iff (base : FsPath) (preview : PreviewTree) :
    plan_moves base preview = Except.ok preview ↔
      check_dirs base preview.directories_to_create = Except.ok () ∧
      check_moves base preview.files_to_move = Except.ok () := by
  rcases hd : check_dirs base preview.directories_to_create with e | u
  · rw [plan_moves, hd, except_error_bind]
    simp
  · cases u
    rcases hm : check_moves base preview.files_to_move with e | v
    · rw [plan_moves, hd, except_ok_bind, hm, except_error_bind]
      simp
    · cases v
      rw [plan_moves, hd, except_ok_bind, hm, except_ok_bind]
      simp

theorem indexed_by_path_isSome (docs : List Document) (p : String) :
    (indexed_by_path docs p).isSome = (docs.map Document.path).contains p := by
  rw [Bool.eq_iff_iff]
  simp only [indexed_by_path, List.find?_isSome, List.mem_reverse, decide_eq_true_eq,
    List.contains_eq_any_beq, List.any_eq_true, List.mem_map, beq_iff_eq]
  constructor
  · rintro ⟨d, hd, rfl⟩
    exact ⟨d.path, ⟨d, hd, rfl⟩, rfl⟩
  · rintro ⟨q, ⟨d, hd, rfl⟩, rfl⟩
    exact ⟨d, hd, rfl⟩

theorem sync_foldl_counts (docs : List Document) (files : List SyncFileMeta)
    (a b : Nat) :
    (files.foldl
      (fun (uc : Nat × Nat) f =>
        match indexed_by_path docs f.path with
        | some d => if d.file_hash = f.hash then (uc.1 + 1, uc.2) else (uc.1, uc.2 + 1)
        | none => uc)
      (a, b)).1 +
    (files.foldl
      (fun (uc : Nat × Nat) f =>
        match indexed_by_path docs f.path with
        | some d => if d.file_hash = f.hash then (uc.1 + 1, uc.2) else (uc.1, uc.2 + 1)
        | none => uc)
      (a, b)).2 =
      a + b + (files.filter fun f => (indexed_by_path docs f.path).isSome).length := by
  induction files generalizing a b with
  | nil => simp
  | cons f rest ih =>
    rcases h : indexed_by_path docs f.path with _ | d
    · simp only [List.foldl_cons, h, List.filter_cons]
      rw [ih a b]
      simp [h]
    · by_cases hh : d.file_hash = f.hash
      · simp only [List.foldl_cons, h, List.filter_cons]
        rw [if_pos hh, ih (a + 1) b]
        simp [h]
        omega
      · simp only [List.foldl_cons, h, List.filter_cons]
        rw [if_neg hh, ih a (b + 1)]
        simp [h]
        omega

theorem file_plans_sources (files : List OrganizeFile)
    (acc : List (FsPath × FsPath)) :
    ∀ mv ∈ files.foldl
      (fun plans f =>
        if f.is_protected = false ∧ f.path ≠ f.dest then plans ++ [(f.path, f.dest)]
        else plans)
      acc,
      mv ∈ acc ∨ ∃ f ∈ files, f.is_protected = false ∧ mv = (f.path, f.dest) := by
  induction files generalizing acc with
  | nil => intro mv hmv; exact Or.inl hmv
  | cons f rest ih =>
    intro mv hmv
    simp only [List.foldl_cons] at hmv
    by_cases hf : f.is_protected = false ∧ f.path ≠ f.dest
    · rw [if_pos hf] at hmv
      rcases ih (acc ++ [(f.path, f.dest)]) mv hmv with hacc | ⟨g, hg, hgp, rfl⟩
      · rcases List.mem_append.mp hacc with h | h
        · exact Or.inl h
        · exact Or.inr ⟨f, by simp, hf.1, by simpa using h⟩
      · exact Or.inr ⟨g, by simp [hg], hgp, rfl⟩
    · rw [if_neg hf] at hmv
      rcases ih acc mv hmv with hacc | ⟨g, hg, hgp, rfl⟩
      · exact Or.inl hacc
      · exact Or.inr ⟨g, by simp [hg], hgp, rfl⟩

theorem apply_cluster_override_sources (override : Nat → FsPath × FsPath → FsPath)
    (plans : List (FsPath × FsPath)) (i : Nat) :
    ∀ mv ∈ apply_cluster_override override i plans, ∃ pl ∈ plans, mv.1 = pl.1 := by
  induction plans generalizing i with
  | nil => intro mv hmv; simp [apply_cluster_override] at hmv
  | cons pl rest ih =>
    intro mv hmv
    rcases List.mem_cons.mp hmv with rfl | hmv
    · exact ⟨pl, by simp, rfl⟩
    · obtain ⟨q, hq, hq1⟩ := ih (i + 1) mv hmv
      exact ⟨q, by simp [hq], hq1⟩

theorem apply_moves_preserve (p : FsPath) (mvs : List (FsPath × FsPath)) :
    ∀ s : List FsPath, p ∈ s → (∀ mv ∈ mvs, mv.1 ≠ p) → p ∈ apply_moves s mvs := by
  induction mvs with
  | nil => intro s hp _; exact hp
  | cons mv rest ih =>
    intro s hp hne
    rw [apply_moves, List.foldl_cons]
    apply ih
    · rw [apply_move]
      by_cases hmem : mv.1 ∈ s
      · rw [if_pos hmem]
        have hne1 : p ≠ mv.1 := Ne.symm (hne mv (by simp))
        exact List.mem_append_left _ ((List.mem_erase_of_ne hne1).mpr hp)
      · rwa [if_neg hmem]
    · intro m hm
      exact hne m (by simp [hm])

/-! #### Claim C1 -/

/-- Claim C1, counterexample: with `dry_run = false` and a preview whose
move source `["outside", "f.txt"]` is not a descendant of the base
`["base"]`, `FileMover::execute` still issues filesystem writes (the
directory creation of the destination parent and the rename) and performs no
base-path check at all; the claimed refuse-before-write behaviour lives only
in `plan_moves`, which `execute` does not call. -/
theorem c1_execute_never_checks_base :
    path_starts_with ["outside", "f.txt"] c1_base = false ∧
    execute c1_preview false =
      [WriteOp.createDir ["base"], WriteOp.rename ["outside", "f.txt"] ["base", "f.txt"]] ∧
    execute c1_preview false ≠ [] := by
  refine ⟨by decide, by decide, by decide⟩

/-- Claim C1, amended: the base-path validation is performed by
`FileMover::plan_moves`, not by `execute`: `plan_moves` succeeds exactly when
every directory creation, move source and move destination is a descendant
of the base, and it is pure (performs no write); `execute` itself only
refrains from writing on a dry run. -/
theorem c1_plan_moves_checks_base (base : FsPath) (preview : PreviewTree) :
    (plan_moves base preview = Except.ok preview ↔
      (∀ d ∈ preview.directories_to_create, path_starts_with d base = true) ∧
      (∀ mv ∈ preview.files_to_move, path_starts_with mv.source base = true ∧
        path_starts_with mv.destination base = true)) ∧
    execute preview true = [] := by
  constructor
  · rw [plan_moves_ok_iff, check_dirs_ok_iff, check_moves_ok_iff]
  · simp [execute]

/-! #### Claim C2 -/

/-- Claim C2: if every analyzed record at path `p` is classified protected
(the classifier is a function of the path, so all records at one path agree),
then no organize run plans a move with source `p` — the protected branch of
main.rs never pushes a `FilePlan` for it, and the cluster override rewrites
only destinations — and therefore iterating organize any number of times
leaves `p` present in the filesystem state unchanged. -/
theorem c2_protected_never_moved
    (runs : List (List OrganizeFile × (Nat → FsPath × FsPath → FsPath)))
    (p : FsPath) (s : List FsPath)
    (hprot : ∀ r ∈ runs, ∀ f ∈ r.1, f.path = p → f.is_protected = true)
    (hmem : p ∈ s) :
    (∀ r ∈ runs, ∀ mv ∈ organize_moves r.1 r.2, mv.1 ≠ p) ∧
    p ∈ run_organize s runs := by
  have key : ∀ (files : List OrganizeFile) (ov : Nat → FsPath × FsPath → FsPath),
      (∀ f ∈ files, f.path = p → f.is_protected = true) →
      ∀ mv ∈ organize_moves files ov, mv.1 ≠ p := by
    intro files ov hf mv hmv hcontra
    obtain ⟨pl, hpl, hsrc⟩ :=
      apply_cluster_override_sources ov (file_plans files) 0 mv hmv
    rcases file_plans_sources files [] pl hpl with hacc | ⟨g, hg, hgp, rfl⟩
    · simp at hacc
    · have : g.path = p := by rw [← hcontra, hsrc]
      rw [hf g hg this] at hgp
      exact Bool.true_eq_false.mp hgp
  constructor
  · intro r hr
    exact key r.1 r.2 (hprot r hr)
  · have main : ∀ rs : List (List OrganizeFile × (Nat → FsPath × FsPath → FsPath)),
        (∀ r ∈ rs, ∀ f ∈ r.1, f.path = p → f.is_protected = true) →
        ∀ s' : List FsPath, p ∈ s' → p ∈ run_organize s' rs := by
      intro rs
      induction rs with
      | nil =>
        intro _ s' hs'
        simpa [run_organize] using hs'
      | cons r rest ih =>
        intro hpr s' hs'
        rw [run_organize, List.foldl_cons]
        have hstep : p ∈ apply_moves s' (organize_moves r.1 r.2) :=
          apply_moves_preserve p _ s' hs' (key r.1 r.2 (hpr r (by simp)))
        exact ih (fun q hq => hpr q (by simp [hq])) _ hstep
    exact main runs hprot s hmem

/-- Claim C2, witness: one run over one protected file leaves its path in
place and plans no move for it. -/
theorem c2_protected_never_moved_witness :
    (∀ r ∈ [([{ path := ["base", "proj", "main.rs"], is_protected := true,
                dest := ["base", "programming", "main.rs"] }],
             fun (_ : Nat) (pl : FsPath × FsPath) => pl.2)],
      ∀ mv ∈ organize_moves r.1 r.2, mv.1 ≠ ["base", "proj", "main.rs"]) ∧
    ["base", "proj", "main.rs"] ∈ run_organize [["base", "proj", "main.rs"]]
      [([{ path := ["base", "proj", "main.rs"], is_protected := true,
           dest := ["base", "programming", "main.rs"] }],
        fun (_ : Nat) (pl : FsPath × FsPath) => pl.2)] :=
  c2_protected_never_moved _ _ _
    (by
      intro r hr f hf _
      rcases List.mem_cons.mp hr with rfl | h
      · rcases List.mem_cons.mp hf with rfl | h2
        · rfl
        · simp at h2
      · simp at h)
    (by simp)

/-! #### Claim C3 -/

/-- Claim C3, counterexample: two indexed versions of the same absent path
`"/base/a.txt"` make `sync_index` report `deleted = 2`, while the claimed
formula (cardinality of the set of indexed paths no longer on disk) gives 1:
`deleted` counts documents, not paths. -/
theorem c3_deleted_counts_documents :
    (sync_index c3_docs []).deleted = 2 ∧
    ((c3_docs.map Document.path).dedup.filter
      fun p => ! ([] : List String).contains p).length = 1 ∧
    (2 : Nat) ≠ 1 := by
  refine ⟨by decide, by decide, by decide⟩

/-- Claim C3, amended: for current files with pairwise-distinct paths,
`unchanged + updated` equals the number of on-disk paths that are indexed
(the cardinality of the intersection of the two path sets), while `deleted`
equals the number of indexed documents — not distinct paths — whose path is
no longer on disk. -/
theorem c3_sync_accounting (docs : List Document) (current_files : List SyncFileMeta)
    (hnd : (current_files.map SyncFileMeta.path).Nodup) :
    (sync_index docs current_files).unchanged + (sync_index docs current_files).updated =
      ((current_files.map SyncFileMeta.path).toFinset ∩
        (docs.map Document.path).toFinset).card ∧
    (sync_index docs current_files).deleted =
      (docs.filter fun d =>
        ! (current_files.map SyncFileMeta.path).contains d.path).length := by
  constructor
  · have h1 : (sync_index docs current_files).unchanged +
        (sync_index docs current_files).updated =
        (current_files.filter fun f => (indexed_by_path docs f.path).isSome).length := by
      simpa [sync_index] using sync_foldl_counts docs current_files 0 0
    rw [h1]
    have h2 : (current_files.filter fun f => (indexed_by_path docs f.path).isSome) =
        current_files.filter fun f => (docs.map Document.path).contains f.path := by
      apply List.filter_congr
      intro f _
      rw [indexed_by_path_isSome]
    rw [h2]
    have h3 : ((current_files.map SyncFileMeta.path).filter
        fun p => (docs.map Document.path).contains p).length =
        (current_files.filter fun f => (docs.map Document.path).contains f.path).length := by
      simp [← List.countP_eq_length_filter, List.countP_map, Function.comp_def]
    rw [← h3]
    have h4 : ((current_files.map SyncFileMeta.path).filter
        fun p => (docs.map Document.path).contains p).Nodup := hnd.filter _
    rw [← List.toFinset_card_of_nodup h4]
    congr 1
    ext p
    simp only [List.mem_toFinset, List.mem_filter, Finset.mem_inter,
      List.contains_eq_any_beq, List.any_eq_true, beq_iff_eq]
    constructor
    · rintro ⟨hmem, q, hq, rfl⟩
      exact ⟨hmem, by simpa using hq⟩
    · rintro ⟨hmem, hq⟩
      exact ⟨hmem, p, by simpa using hq, rfl⟩
  · simp [sync_index, delete_missing_files]

/-- Claim C3, witness for the amended theorem at a concrete input: one
on-disk file whose path is absent from the index. -/
theorem c3_sync_accounting_witness :
    (sync_index c3_docs [{ path := "/base/b.txt", hash := "x" }]).unchanged +
      (sync_index c3_docs [{ path := "/base/b.txt", hash := "x" }]).updated =
      ((([{ path := "/base/b.txt", hash := "x" }] : List SyncFileMeta).map
        SyncFileMeta.path).toFinset ∩ (c3_docs.map Document.path).toFinset).card ∧
    (sync_index c3_docs [{ path := "/base/b.txt", hash := "x" }]).deleted =
      (c3_docs.filter fun d =>
        ! (([{ path := "/base/b.txt", hash := "x" }] : List SyncFileMeta).map
          SyncFileMeta.path).contains d.path).length :=
  c3_sync_accounting c3_docs [{ path := "/base/b.txt", hash := "x" }] (by decide)

theorem is_err_true_iff {ε α : Type} (x : Except ε α) :
    is_err x = true ↔ ∃ e, x = Except.error e := by
  cases x <;> simp [is_err]

theorem is_err_false_iff {ε α : Type} (x : Except ε α) :
    is_err x = false ↔ ∃ v, x = Except.ok v := by
  cases x <;> simp [is_err]

theorem fallback_scan_first_ok (try_url : ReplicaBehaviour) (n index : Nat) (v : List ℚ) :
    ∀ (pre : List Nat) (o : Nat) (post : List Nat) (last : Nat × String),
      (∀ q ∈ pre, is_err (try_url ((index + q) % n)) = true) →
      try_url ((index + o) % n) = Except.ok v →
      fallback_scan try_url n index (pre ++ o :: post) last = Except.ok v := by
  intro pre
  induction pre with
  | nil =>
    intro o post last _ hok
    simp [fallback_scan, hok]
  | cons q rest ih =>
    intro o post last herr hok
    obtain ⟨e, he⟩ := (is_err_true_iff _).mp (herr q (by simp))
    simp only [List.cons_append, fallback_scan, he]
    exact ih o post _ (fun x hx => herr x (by simp [hx])) hok

theorem fallback_scan_all_err (try_url : ReplicaBehaviour) (n index : Nat) :
    ∀ (pre : List Nat) (o₀ : Nat) (e : String) (last : Nat × String),
      (∀ q ∈ pre, is_err (try_url ((index + q) % n)) = true) →
      try_url ((index + o₀) % n) = Except.error e →
      fallback_scan try_url n index (pre ++ [o₀]) last =
        Except.error (EmbError.allFailed ((index + o₀) % n) e) := by
  intro pre
  induction pre with
  | nil =>
    intro o₀ e last _ he
    simp [fallback_scan, he]
  | cons q rest ih =>
    intro o₀ e last herr he
    obtain ⟨e', he'⟩ := (is_err_true_iff _).mp (herr q (by simp))
    simp only [List.cons_append, fallback_scan, he']
    exact ih o₀ e _ (fun x hx => herr x (by simp [hx])) he

theorem dedup_foldl_nodup : ∀ (l acc : List String), acc.Nodup →
    (l.foldl (fun acc t => if t ∈ acc then acc else acc ++ [t]) acc).Nodup := by
  intro l
  induction l with
  | nil => intro acc h; exact h
  | cons t rest ih =>
    intro acc h
    rw [List.foldl_cons]
    by_cases hmem : t ∈ acc
    · rw [if_pos hmem]
      exact ih acc h
    · rw [if_neg hmem]
      refine ih _ ?_
      rw [List.nodup_append]
      exact ⟨h, List.nodup_singleton t, by simpa [List.disjoint_singleton] using hmem⟩

theorem dedup_preserving_nodup (l : List String) : (dedup_preserving l).Nodup :=
  dedup_foldl_nodup l [] List.nodup_nil

theorem dedup_foldl_ne_nil : ∀ (l acc : List String), acc ≠ [] →
    l.foldl (fun acc t => if t ∈ acc then acc else acc ++ [t]) acc ≠ [] := by
  intro l
  induction l with
  | nil => intro acc h; exact h
  | cons t rest ih =>
    intro acc h
    rw [List.foldl_cons]
    by_cases hmem : t ∈ acc
    · rw [if_pos hmem]
      exact ih acc h
    · rw [if_neg hmem]
      exact ih _ (by simp)

theorem dedup_preserving_ne_nil (l : List String) (h : l ≠ []) :
    dedup_preserving l ≠ [] := by
  rcases l with _ | ⟨t, rest⟩
  · exact absurd rfl h
  · rw [dedup_preserving, List.foldl_cons]
    rw [if_neg (List.not_mem_nil t)]
    exact dedup_foldl_ne_nil rest [t] (by simp)

theorem push_if_missing_nodup (tags : List String) (t : String) (h : tags.Nodup) :
    (push_if_missing tags t).Nodup := by
  rw [push_if_missing]
  by_cases hc : tags.contains t
  · rwa [if_pos hc]
  · rw [if_neg hc, List.nodup_append]
    refine ⟨h, List.nodup_singleton t, ?_⟩
    simp only [List.contains_eq_any_beq, List.any_eq_true, beq_iff_eq] at hc
    simp only [List.disjoint_singleton]
    intro hmem
    exact hc ⟨t, hmem, rfl⟩

theorem nodup_if_push (c : Prop) [Decidable c] (tags : List String) (t : String)
    (h : tags.Nodup) : (if c then push_if_missing tags t else tags).Nodup := by
  by_cases hc : c
  · rw [if_pos hc]
    exact push_if_missing_nodup _ _ h
  · rwa [if_neg hc]

theorem uint32_le_iff (a b : UInt32) : a ≤ b ↔ a.toNat ≤ b.toNat := by
  rw [UInt32.le_def]
  exact BitVec.le_def

theorem char_isUpper_iff (c : Char) : c.isUpper = true ↔ 65 ≤ c.toNat ∧ c.toNat ≤ 90 := by
  simp only [Char.isUpper, Bool.and_eq_true, decide_eq_true_eq, uint32_le_iff]
  constructor
  · rintro ⟨h1, h2⟩
    exact ⟨by simpa using h1, by simpa using h2⟩
  · rintro ⟨h1, h2⟩
    exact ⟨by simpa using h1, by simpa using h2⟩

theorem char_ofNat_toNat (n : Nat) (h : n.isValidChar) : (Char.ofNat n).toNat = n := by
  rw [Char.ofNat, dif_pos h]
  rfl

theorem char_toLower_not_upper (c : Char) : (c.toLower).isUpper = false := by
  rw [Char.toLower]
  split
  next h =>
    have hvalid : (c.toNat + 32).isValidChar := Or.inl (by omega)
    have htn : (Char.ofNat (c.toNat + 32)).toNat = c.toNat + 32 := char_ofNat_toNat _ hvalid
    rw [Bool.eq_false_iff]
    intro hu
    rw [char_isUpper_iff, htn] at hu
    omega
  next h =>
    rw [Bool.eq_false_iff]
    intro hu
    rw [char_isUpper_iff] at hu
    exact h ⟨hu.1, hu.2⟩

theorem sanitize_tag_name_good (t : String) : good_component (sanitize_tag_name t) := by
  intro ch hch
  have hch' : ch ∈ ((t.toList.map Char.toLower).map fun c =>
      if c = ' ' ∨ c = '_' then '-' else c).filter fun c => c.isAlphanum || c = '-' := hch
  obtain ⟨hmem, hp⟩ := List.mem_filter.mp hch'
  refine ⟨hp, ?_⟩
  obtain ⟨y, hy, rfl⟩ := List.mem_map.mp hmem
  obtain ⟨x, _, rfl⟩ := List.mem_map.mp hy
  by_cases hcase : Char.toLower x = ' ' ∨ Char.toLower x = '_'
  · rw [if_pos hcase]
    decide
  · rw [if_neg hcase]
    exact char_toLower_not_upper x

theorem fold_add_component_good :
    ∀ (l : List (String × Nat)) (comps : List String),
      (∀ c ∈ comps, good_component c) →
      ∀ c ∈ l.foldl add_component comps, good_component c := by
  intro l
  induction l with
  | nil => intro comps h; exact h
  | cons tc rest ih =>
    intro comps h
    rw [List.foldl_cons]
    apply ih
    rw [add_component]
    by_cases hsim : is_similar_to_any (sanitize_tag_name tc.1) comps
    · rw [if_pos hsim]
      exact h
    · rw [if_neg hsim]
      intro c hc
      rcases List.mem_append.mp hc with hc1 | hc2
      · exact h c hc1
      · rw [List.mem_singleton.mp hc2]
        exact sanitize_tag_name_good tc.1

theorem fold_filler_good :
    ∀ (l : List (String × Nat)) (cu : List String × List String),
      (∀ c ∈ cu.1, good_component c) →
      ∀ c ∈ (l.foldl filler_step cu).1, good_component c := by
  intro l
  induction l with
  | nil => intro cu h; exact h
  | cons tc rest ih =>
    intro cu h
    rw [List.foldl_cons]
    apply ih
    rw [filler_step]
    by_cases hused : tc.1 ∈ cu.2
    · rw [if_pos hused]
      exact h
    · rw [if_neg hused]
      by_cases hsim : is_similar_to_any (sanitize_tag_name tc.1) cu.1
      · rw [if_pos hsim]
        exact h
      · rw [if_neg hsim]
        intro c hc
        rcases List.mem_append.mp hc with hc1 | hc2
        · exact h c hc1
        · rw [List.mem_singleton.mp hc2]
          exact sanitize_tag_name_good tc.1

theorem fold_add_component_length :
    ∀ (l : List (String × Nat)) (comps : List String),
      (l.foldl add_component comps).length ≤ comps.length + l.length := by
  intro l
  induction l with
  | nil => intro comps; simp
  | cons tc rest ih =>
    intro comps
    rw [List.foldl_cons]
    refine le_trans (ih (add_component comps tc)) ?_
    rw [add_component]
    by_cases hsim : is_similar_to_any (sanitize_tag_name tc.1) comps
    · rw [if_pos hsim]
      simp only [List.length_cons]
      omega
    · rw [if_neg hsim]
      simp only [List.length_append, List.length_cons]
      simp
      omega

/-! #### Claim C4 -/

set_option maxRecDepth 8000 in
/-- Claim C4, counterexample: eight dissimilar unclassified tags with
multiplicities 8 … 1 (so the sorted order is the same for every HashMap
enumeration) and `max_depth = 2`.  The remaining-tags fill loop never
decrements its depth budget, so the result has 3 components — more than
`max_depth` — and the component "-mtmtmt" keeps its leading hyphen because
`sanitize_tag_name` never trims hyphens. -/
theorem c4_depth_and_hyphens :
    sort_by_count_desc (tag_counts c4_tags) =
      [("zqzq", 8), ("zqzqzq", 7), ("vjvjvj", 6), ("wfwfwf", 5), ("zqzqzqzq", 4),
       ("kxkxkx", 3), ("-mtmtmt", 2), ("rprprp", 1)] ∧
    from_tags_hierarchical c4_tags 2 = ["zqzq", "-mtmtmt", "rprprp"] ∧
    ¬ (from_tags_hierarchical c4_tags 2).length ≤ 2 ∧
    "-mtmtmt" ∈ from_tags_hierarchical c4_tags 2 ∧
    "-mtmtmt".toList.head? = some '-' := by
  have h2 : from_tags_hierarchical c4_tags 2 = ["zqzq", "-mtmtmt", "rprprp"] := by decide
  exact ⟨by decide, h2, by rw [h2]; decide, by rw [h2]; decide, by decide⟩

/-- Claim C4, amended: every emitted folder path is non-empty and each
component is non-empty and consists of non-uppercase alphanumeric-or-hyphen
characters (leading and trailing hyphens are NOT trimmed); the component
count is bounded by `max_depth` when `max_depth ≥ 1` and every counted tag
landed in the kept primary/secondary/tertiary buckets (so that the
remaining-tags fill loop — whose depth budget is never re-checked — does not
run); without that proviso the bound can be exceeded. -/
theorem c4_sanitized_components (sorted_tags : List (String × Nat)) (max_depth : Nat) :
    from_tags_hierarchical_core sorted_tags max_depth ≠ [] ∧
    (∀ c ∈ from_tags_hierarchical_core sorted_tags max_depth,
      c ≠ "" ∧ good_component c) ∧
    (1 ≤ max_depth →
      sorted_tags.length ≤ (categorize_tags_enhanced sorted_tags).1.length +
        (categorize_tags_enhanced sorted_tags).2.1.length +
        (categorize_tags_enhanced sorted_tags).2.2.length →
      (from_tags_hierarchical_core sorted_tags max_depth).length ≤ max_depth) := by
  have hcore : from_tags_hierarchical_core sorted_tags max_depth =
      (if ((comps_stage3 sorted_tags (categorize_tags_enhanced sorted_tags).1
          (categorize_tags_enhanced sorted_tags).2.1
          (categorize_tags_enhanced sorted_tags).2.2 max_depth
          (comps_stage2 (categorize_tags_enhanced sorted_tags).2.2 max_depth
            (comps_stage1 (categorize_tags_enhanced sorted_tags).2.1 max_depth
              (comps_stage0 (categorize_tags_enhanced sorted_tags).1)))).filter
          fun c => ¬ c.isEmpty).isEmpty
        then ["uncategorized"]
        else (comps_stage3 sorted_tags (categorize_tags_enhanced sorted_tags).1
          (categorize_tags_enhanced sorted_tags).2.1
          (categorize_tags_enhanced sorted_tags).2.2 max_depth
          (comps_stage2 (categorize_tags_enhanced sorted_tags).2.2 max_depth
            (comps_stage1 (categorize_tags_enhanced sorted_tags).2.1 max_depth
              (comps_stage0 (categorize_tags_enhanced sorted_tags).1)))).filter
          fun c => ¬ c.isEmpty) := rfl
  have hgood : ∀ c ∈ comps_stage3 sorted_tags (categorize_tags_enhanced sorted_tags).1
      (categorize_tags_enhanced sorted_tags).2.1
      (categorize_tags_enhanced sorted_tags).2.2 max_depth
      (comps_stage2 (categorize_tags_enhanced sorted_tags).2.2 max_depth
        (comps_stage1 (categorize_tags_enhanced sorted_tags).2.1 max_depth
          (comps_stage0 (categorize_tags_enhanced sorted_tags).1))),
      good_component c := by
    have h0 : ∀ c ∈ comps_stage0 (categorize_tags_enhanced sorted_tags).1,
        good_component c := by
      rcases (categorize_tags_enhanced sorted_tags).1 with _ | ⟨p, _⟩
      · intro c hc
        simp [comps_stage0] at hc
      · intro c hc
        rw [comps_stage0] at hc
        rw [List.mem_singleton.mp hc]
        exact sanitize_tag_name_good p.1
    have h1 : ∀ c ∈ comps_stage1 (categorize_tags_enhanced sorted_tags).2.1 max_depth
        (comps_stage0 (categorize_tags_enhanced sorted_tags).1), good_component c := by
      rw [comps_stage1]
      exact fold_add_component_good _ _ h0
    have h2 : ∀ c ∈ comps_stage2 (categorize_tags_enhanced sorted_tags).2.2 max_depth
        (comps_stage1 (categorize_tags_enhanced sorted_tags).2.1 max_depth
          (comps_stage0 (categorize_tags_enhanced sorted_tags).1)), good_component c := by
      rw [comps_stage2]
      exact fold_add_component_good _ _ h1
    rw [comps_stage3]
    by_cases hcond : 0 < max_depth -
        (comps_stage2 (categorize_tags_enhanced sorted_tags).2.2 max_depth
          (comps_stage1 (categorize_tags_enhanced sorted_tags).2.1 max_depth
            (comps_stage0 (categorize_tags_enhanced sorted_tags).1))).length ∧
        (categorize_tags_enhanced sorted_tags).1.length +
          (categorize_tags_enhanced sorted_tags).2.1.length +
          (categorize_tags_enhanced sorted_tags).2.2.length < sorted_tags.length
    · rw [if_pos hcond]
      exact fold_filler_good _ _ h2
    · rw [if_neg hcond]
      exact h2
  refine ⟨?_, ?_, ?_⟩
  · rw [hcore]
    by_cases hfe : ((comps_stage3 sorted_tags (categorize_tags_enhanced sorted_tags).1
        (categorize_tags_enhanced sorted_tags).2.1
        (categorize_tags_enhanced sorted_tags).2.2 max_depth
        (comps_stage2 (categorize_tags_enhanced sorted_tags).2.2 max_depth
          (comps_stage1 (categorize_tags_enhanced sorted_tags).2.1 max_depth
            (comps_stage0 (categorize_tags_enhanced sorted_tags).1)))).filter
        fun c => ¬ c.isEmpty).isEmpty
    · rw [if_pos hfe]
      simp
    · rw [if_neg hfe]
      simpa [List.isEmpty_iff] using hfe
  · intro c hc
    rw [hcore] at hc
    by_cases hfe : ((comps_stage3 sorted_tags (categorize_tags_enhanced sorted_tags).1
        (categorize_tags_enhanced sorted_tags).2.1
        (categorize_tags_enhanced sorted_tags).2.2 max_depth
        (comps_stage2 (categorize_tags_enhanced sorted_tags).2.2 max_depth
          (comps_stage1 (categorize_tags_enhanced sorted_tags).2.1 max_depth
            (comps_stage0 (categorize_tags_enhanced sorted_tags).1)))).filter
        fun c => ¬ c.isEmpty).isEmpty
    · rw [if_pos hfe] at hc
      rw [List.mem_singleton.mp hc]
      exact ⟨by decide, by decide⟩
    · rw [if_neg hfe] at hc
      obtain ⟨hmem, hne⟩ := List.mem_filter.mp hc
      refine ⟨?_, hgood c hmem⟩
      simp only [decide_eq_true_eq] at hne
      intro h0
      exact hne (by rw [h0]; rfl)
  · intro hmd hle
    have hno : ¬ (0 < max_depth -
        (comps_stage2 (categorize_tags_enhanced sorted_tags).2.2 max_depth
          (comps_stage1 (categorize_tags_enhanced sorted_tags).2.1 max_depth
            (comps_stage0 (categorize_tags_enhanced sorted_tags).1))).length ∧
        (categorize_tags_enhanced sorted_tags).1.length +
          (categorize_tags_enhanced sorted_tags).2.1.length +
          (categorize_tags_enhanced sorted_tags).2.2.length < sorted_tags.length) := by
      rintro ⟨_, hlt⟩
      omega
    have hst3 : comps_stage3 sorted_tags (categorize_tags_enhanced sorted_tags).1
        (categorize_tags_enhanced sorted_tags).2.1
        (categorize_tags_enhanced sorted_tags).2.2 max_depth
        (comps_stage2 (categorize_tags_enhanced sorted_tags).2.2 max_depth
          (comps_stage1 (categorize_tags_enhanced sorted_tags).2.1 max_depth
            (comps_stage0 (categorize_tags_enhanced sorted_tags).1))) =
        comps_stage2 (categorize_tags_enhanced sorted_tags).2.2 max_depth
          (comps_stage1 (categorize_tags_enhanced sorted_tags).2.1 max_depth
            (comps_stage0 (categorize_tags_enhanced sorted_tags).1)) := by
      rw [comps_stage3, if_neg hno]
    have hl0 : (comps_stage0 (categorize_tags_enhanced sorted_tags).1).length ≤ 1 := by
      rcases (categorize_tags_enhanced sorted_tags).1 with _ | ⟨p, rest⟩
      · simp [comps_stage0]
      · simp [comps_stage0]
    have hl1 : (comps_stage1 (categorize_tags_enhanced sorted_tags).2.1 max_depth
        (comps_stage0 (categorize_tags_enhanced sorted_tags).1)).length ≤ max_depth := by
      rw [comps_stage1]
      refine le_trans (fold_add_component_length _ _) ?_
      have htake := List.length_take_le
        (min (max_depth - (comps_stage0 (categorize_tags_enhanced sorted_tags).1).length) 3)
        (categorize_tags_enhanced sorted_tags).2.1
      have hmin : min (max_depth -
          (comps_stage0 (categorize_tags_enhanced sorted_tags).1).length) 3 ≤
          max_depth - (comps_stage0 (categorize_tags_enhanced sorted_tags).1).length :=
        Nat.min_le_left _ _
      omega
    have hl2 : (comps_stage2 (categorize_tags_enhanced sorted_tags).2.2 max_depth
        (comps_stage1 (categorize_tags_enhanced sorted_tags).2.1 max_depth
          (comps_stage0 (categorize_tags_enhanced sorted_tags).1))).length ≤ max_depth := by
      rw [comps_stage2]
      refine le_trans (fold_add_component_length _ _) ?_
      have htake := List.length_take_le
        (min (max_depth - (comps_stage1 (categorize_tags_enhanced sorted_tags).2.1 max_depth
          (comps_stage0 (categorize_tags_enhanced sorted_tags).1)).length) 2)
        (categorize_tags_enhanced sorted_tags).2.2
      have hmin : min (max_depth -
          (comps_stage1 (categorize_tags_enhanced sorted_tags).2.1 max_depth
            (comps_stage0 (categorize_tags_enhanced sorted_tags).1)).length) 2 ≤
          max_depth - (comps_stage1 (categorize_tags_enhanced sorted_tags).2.1 max_depth
            (comps_stage0 (categorize_tags_enhanced sorted_tags).1)).length :=
        Nat.min_le_left _ _
      omega
    rw [hcore, hst3]
    by_cases hfe : ((comps_stage2 (categorize_tags_enhanced sorted_tags).2.2 max_depth
        (comps_stage1 (categorize_tags_enhanced sorted_tags).2.1 max_depth
          (comps_stage0 (categorize_tags_enhanced sorted_tags).1))).filter
        fun c => ¬ c.isEmpty).isEmpty
    · rw [if_pos hfe]
      simpa using hmd
    · rw [if_neg hfe]
      exact le_trans (List.length_filter_le _ _) hl2

/-- Claim C4, witness for the amended theorem: two classified tags and
`max_depth = 4` give a non-empty path of at most 4 components. -/
theorem c4_sanitized_components_witness :
    from_tags_hierarchical_core [("document", 3), ("rust", 2)] 4 ≠ [] ∧
    (from_tags_hierarchical_core [("document", 3), ("rust", 2)] 4).length ≤ 4 :=
  ⟨(c4_sanitized_components [("document", 3), ("rust", 2)] 4).1,
   (c4_sanitized_components [("document", 3), ("rust", 2)] 4).2.2 (by decide) (by decide)⟩

/-! #### Claim C7 -/

/-- Claim C7, counterexample: for a file named "unknown-stuff" (no
extension, empty content), the path tags are inferred as "unknown" and
"stuff", and `generate_tags_default` returns both: "unknown" is not dropped
in the presence of the other tag, so it does not appear only as the sole
tag. -/
theorem c7_unknown_not_dropped :
    generate_tags_default
      { file_stem := some "unknown-stuff", ancestor_dir_names := [], current_user := "" }
      none "" keyword_mappings = ["unknown", "stuff"] ∧
    "unknown" ∈ generate_tags_default
      { file_stem := some "unknown-stuff", ancestor_dir_names := [], current_user := "" }
      none "" keyword_mappings ∧
    generate_tags_default
      { file_stem := some "unknown-stuff", ancestor_dir_names := [], current_user := "" }
      none "" keyword_mappings ≠ ["unknown"] := by
  refine ⟨by decide, by decide, by decide⟩

/-- Claim C7, amended: the generated tag list never contains duplicates (in
the default and in the JSON implementation, for every keyword-map iteration
order), and "unknown" is emitted as fallback exactly when no tag was
inferred — in which case it is the sole tag; but an "unknown" inferred from
the path or content is kept alongside the other tags, never dropped. -/
theorem c7_tag_uniqueness (ctx : PathContext) (extension : Option String)
    (content : String) (keyword_order : List (String × String))
    (parsed : Option JsonShape) :
    (generate_tags_default ctx extension content keyword_order).Nodup ∧
    generate_tags_default ctx extension content keyword_order ≠ [] ∧
    (inferred_tags ctx extension content keyword_order = [] →
      generate_tags_default ctx extension content keyword_order = ["unknown"]) ∧
    (inferred_tags ctx extension content keyword_order ≠ [] →
      generate_tags_default ctx extension content keyword_order =
        dedup_preserving (inferred_tags ctx extension content keyword_order)) ∧
    (json_generate_tags ctx extension content keyword_order parsed).Nodup := by
  by_cases hinf : inferred_tags ctx extension content keyword_order = []
  · have hres : generate_tags_default ctx extension content keyword_order = ["unknown"] := by
      simp only [generate_tags_default, hinf]
      rfl
    refine ⟨by rw [hres]; exact List.nodup_singleton _, by rw [hres]; simp,
      fun _ => hres, fun hne => absurd hinf hne, ?_⟩
    have hbase := hres ▸ List.nodup_singleton "unknown"
    simp only [json_generate_tags]
    rcases parsed with _ | shape
    · exact push_if_missing_nodup _ _ hbase
    · cases shape with
      | object keys =>
        exact nodup_if_push _ _ _ (nodup_if_push _ _ _ (nodup_if_push _ _ _
          (nodup_if_push _ _ _ (push_if_missing_nodup _ _ hbase))))
      | array => exact push_if_missing_nodup _ _ (push_if_missing_nodup _ _ hbase)
      | other => exact push_if_missing_nodup _ _ hbase
  · have hdne : dedup_preserving (inferred_tags ctx extension content keyword_order) ≠ [] :=
      dedup_preserving_ne_nil _ hinf
    have hres : generate_tags_default ctx extension content keyword_order =
        dedup_preserving (inferred_tags ctx extension content keyword_order) := by
      simp only [generate_tags_default]
      rw [if_neg (by simpa [List.isEmpty_iff] using hdne)]
    have hnd : (generate_tags_default ctx extension content keyword_order).Nodup := by
      rw [hres]
      exact dedup_preserving_nodup _
    refine ⟨hnd, by rw [hres]; exact hdne, fun h0 => absurd h0 hinf, fun _ => hres, ?_⟩
    simp only [json_generate_tags]
    rcases parsed with _ | shape
    · exact push_if_missing_nodup _ _ hnd
    · cases shape with
      | object keys =>
        exact nodup_if_push _ _ _ (nodup_if_push _ _ _ (nodup_if_push _ _ _
          (nodup_if_push _ _ _ (push_if_missing_nodup _ _ hnd))))
      | array => exact push_if_missing_nodup _ _ (push_if_missing_nodup _ _ hnd)
      | other => exact push_if_missing_nodup _ _ hnd

/-- Claim C7, witness for the amended theorem: the "unknown-stuff" input has
inferred tags, so the result is the deduplicated inferred list and is
duplicate-free. -/
theorem c7_tag_uniqueness_witness :
    (generate_tags_default
      { file_stem := some "unknown-stuff", ancestor_dir_names := [], current_user := "" }
      none "" keyword_mappings).Nodup ∧
    generate_tags_default
      { file_stem := some "unknown-stuff", ancestor_dir_names := [], current_user := "" }
      none "" keyword_mappings =
      dedup_preserving (inferred_tags
        { file_stem := some "unknown-stuff", ancestor_dir_names := [], current_user := "" }
        none "" keyword_mappings) :=
  ⟨(c7_tag_uniqueness _ none "" keyword_mappings none).1,
   (c7_tag_uniqueness
     { file_stem := some "unknown-stuff", ancestor_dir_names := [], current_user := "" }
     none "" keyword_mappings none).2.2.2.1 (by decide)⟩

/-! #### Sorting lemmas for claims C8 and C4 -/

theorem insert_desc_perm (x : String × Nat) (l : List (String × Nat)) :
    List.Perm (insert_desc x l) (x :: l) := by
  induction l with
  | nil => exact List.Perm.refl _
  | cons y rest ih =>
    by_cases h : y.2 ≤ x.2
    · rw [insert_desc, if_pos h]
    · rw [insert_desc, if_neg h]
      exact List.Perm.trans (List.Perm.cons y ih) (List.Perm.swap x y rest)

theorem sort_by_count_desc_perm (l : List (String × Nat)) :
    List.Perm (sort_by_count_desc l) l := by
  induction l with
  | nil => exact List.Perm.refl _
  | cons x rest ih =>
    rw [sort_by_count_desc]
    exact List.Perm.trans (insert_desc_perm _ _) (List.Perm.cons x ih)

theorem insert_desc_sorted (x : String × Nat) :
    ∀ l : List (String × Nat), List.Pairwise (fun p q => q.2 ≤ p.2) l →
      List.Pairwise (fun p q : String × Nat => q.2 ≤ p.2) (insert_desc x l) := by
  intro l
  induction l with
  | nil =>
    intro _
    simp [insert_desc]
  | cons y rest ih =>
    intro h
    rcases List.pairwise_cons.mp h with ⟨hy, hrest⟩
    by_cases hc : y.2 ≤ x.2
    · rw [insert_desc, if_pos hc]
      refine List.pairwise_cons.mpr ⟨?_, h⟩
      intro z hz
      rcases List.mem_cons.mp hz with rfl | hz2
      · exact hc
      · exact le_trans (hy z hz2) hc
    · rw [insert_desc, if_neg hc]
      refine List.pairwise_cons.mpr ⟨?_, ih hrest⟩
      intro z hz
      rcases List.mem_cons.mp ((insert_desc_perm x rest).mem_iff.mp hz) with rfl | hz2
      · exact le_of_not_le hc
      · exact hy z hz2

theorem sort_by_count_desc_sorted (l : List (String × Nat)) :
    List.Pairwise (fun p q : String × Nat => q.2 ≤ p.2) (sort_by_count_desc l) := by
  induction l with
  | nil => simp [sort_by_count_desc]
  | cons x rest ih =>
    rw [sort_by_count_desc]
    exact insert_desc_sorted x _ ih

/-! #### Claim C8 -/

/-- Claim C8, counterexample: a cluster with members tagged ["b"] and ["a"]
has the tied counts b ↦ 1, a ↦ 1; the enumeration [("b", 1), ("a", 1)] is a
legitimate HashMap iteration of that map, and the stable sort leaves it
unchanged, giving dominant tags ["b", "a"] — not the lexicographic
tie-break ["a", "b"] the claim requires. -/
theorem c8_ties_not_lexicographic :
    is_tag_count_enum [("b", 1), ("a", 1)] [["b"], ["a"]] ∧
    recompute_dominant_tags [("b", 1), ("a", 1)] = ["b", "a"] ∧
    ["b", "a"] ≠ ["a", "b"] := by
  refine ⟨by decide, by decide, by decide⟩

/-- Claim C8, amended: for every HashMap enumeration of the cluster's tag
counts, the recomputed dominant tags are the first three tags of the
stable descending-by-count sort of that enumeration: there are
`min 3 #distinct-tags` of them, each occurs in the cluster, and every
dominant tag's frequency is at least that of every non-dominant tag — but
ties are broken by the unspecified enumeration order, not
lexicographically. -/
theorem c8_dominant_top3 (entries : List (String × Nat)) (member_tags : List (List String))
    (h : is_tag_count_enum entries member_tags) :
    (recompute_dominant_tags entries).length = min 3 entries.length ∧
    (∀ t ∈ recompute_dominant_tags entries, t ∈ entries.map Prod.fst) ∧
    (∀ t ∈ recompute_dominant_tags entries, ∀ u ∈ entries.map Prod.fst,
      u ∉ recompute_dominant_tags entries →
      tag_count member_tags u ≤ tag_count member_tags t) := by
  obtain ⟨hnd, hcount, _⟩ := h
  have hperm := sort_by_count_desc_perm entries
  have hsort := sort_by_count_desc_sorted entries
  refine ⟨?_, ?_, ?_⟩
  · rw [recompute_dominant_tags, List.length_map, List.length_take, hperm.length_eq]
  · intro t ht
    obtain ⟨p, hp, rfl⟩ := List.mem_map.mp ht
    exact List.mem_map_of_mem _ (hperm.mem_iff.mp (List.take_subset _ _ hp))
  · intro t ht u hu hnot
    obtain ⟨p, hp, rfl⟩ := List.mem_map.mp ht
    obtain ⟨q, hq, rfl⟩ := List.mem_map.mp hu
    have hqs : q ∈ sort_by_count_desc entries := hperm.mem_iff.mpr hq
    have hsplit := List.take_append_drop 3 (sort_by_count_desc entries)
    have hqtd : q ∈ (sort_by_count_desc entries).take 3 ++
        (sort_by_count_desc entries).drop 3 := by
      rw [hsplit]
      exact hqs
    have hqdrop : q ∈ (sort_by_count_desc entries).drop 3 := by
      rcases List.mem_append.mp hqtd with h1 | h2
      · exact absurd (List.mem_map_of_mem Prod.fst h1) hnot
      · exact h2
    have hpair : List.Pairwise (fun p q : String × Nat => q.2 ≤ p.2)
        ((sort_by_count_desc entries).take 3 ++ (sort_by_count_desc entries).drop 3) := by
      rw [hsplit]
      exact hsort
    have hle : q.2 ≤ p.2 := (List.pairwise_append.mp hpair).2.2 p hp q hqdrop
    have hpc := hcount p (hperm.mem_iff.mp (List.take_subset _ _ hp))
    have hqc := hcount q hq
    rw [← hpc.1, ← hqc.1]
    exact hle

/-- Claim C8, witness for the amended theorem at a concrete cluster: counts
b ↦ 2, a ↦ 1. -/
theorem c8_dominant_top3_witness :
    (recompute_dominant_tags [("b", 2), ("a", 1)]).length =
      min 3 ([("b", 2), ("a", 1)] : List (String × Nat)).length ∧
    (∀ t ∈ recompute_dominant_tags [("b", 2), ("a", 1)],
      t ∈ ([("b", 2), ("a", 1)] : List (String × Nat)).map Prod.fst) ∧
    (∀ t ∈ recompute_dominant_tags [("b", 2), ("a", 1)],
      ∀ u ∈ ([("b", 2), ("a", 1)] : List (String × Nat)).map Prod.fst,
      u ∉ recompute_dominant_tags [("b", 2), ("a", 1)] →
      tag_count [["b", "b"], ["a"]] u ≤ tag_count [["b", "b"], ["a"]] t) :=
  c8_dominant_top3 [("b", 2), ("a", 1)] [["b", "b"], ["a"]] (by decide)

/-! #### Claim C5 -/

/-- Claim C5: the multi-replica provider with a valid input tries the
round-robin replica `counter % n` first and then the remaining replicas in
rotation order (first conjunct); hence if any replica would answer
successfully the call succeeds (second conjunct, so at most N−1 failing
replicas never surface an error), and if every replica fails the call
returns the all-backends-failed error carrying the error of the last replica
in rotation order, `(counter % n + (n − 1)) % n` (third conjunct). -/
theorem c5_failover (try_url : ReplicaBehaviour) (n counter : Nat) (content : String)
    (hn : 0 < n) (hne : (rust_trim content).isEmpty = false)
    (hlen : ¬ rust_len (rust_trim content) < 3) :
    (∀ j v, j < n →
      (∀ k, k < j → is_err (try_url ((counter % n + k) % n)) = true) →
      try_url ((counter % n + j) % n) = Except.ok v →
      compute_embedding_multi try_url n counter content = Except.ok v) ∧
    ((∃ i, i < n ∧ is_err (try_url i) = false) →
      ∃ v, compute_embedding_multi try_url n counter content = Except.ok v) ∧
    ((∀ i, i < n → is_err (try_url i) = true) →
      ∃ e, try_url ((counter % n + (n - 1)) % n) = Except.error e ∧
        compute_embedding_multi try_url n counter content =
          Except.error (EmbError.allFailed ((counter % n + (n - 1)) % n) e)) := by
  have hn0 : n ≠ 0 := Nat.pos_iff_ne_zero.mp hn
  have hcompute : compute_embedding_multi try_url n counter content =
      match try_url (counter % n) with
      | Except.ok embedding => Except.ok embedding
      | Except.error e =>
        fallback_scan try_url n (counter % n) (List.range' 1 (n - 1)) (counter % n, e) := by
    simp only [compute_embedding_multi, hne, hlen, hn0]
    simp
  have hmodmod : ∀ a : Nat, a % n % n = a % n := fun a => Nat.mod_mod_of_dvd a dvd_rfl
  have hrot : ∀ j v, j < n →
      (∀ k, k < j → is_err (try_url ((counter % n + k) % n)) = true) →
      try_url ((counter % n + j) % n) = Except.ok v →
      compute_embedding_multi try_url n counter content = Except.ok v := by
    intro j v hj hprev hok
    rw [hcompute]
    cases j with
    | zero =>
      rw [Nat.add_zero, hmodmod] at hok
      rw [hok]
    | succ j' =>
      obtain ⟨e0, he0⟩ := (is_err_true_iff _).mp (hprev 0 (Nat.succ_pos _))
      rw [Nat.add_zero, hmodmod] at he0
      rw [he0]
      have e1 : List.range' 1 (n - 1) =
          List.range' 1 j' ++ List.range' (1 + j') (n - 1 - j') := by
        obtain ⟨m, hm⟩ : ∃ m, n - 1 - j' = m := ⟨_, rfl⟩
        rw [hm]
        have h := List.range'_append 1 j' m 1
        simp only [one_mul] at h
        rw [show n - 1 = m + j' from by omega]
        exact h.symm
      have e2 : List.range' (1 + j') (n - 1 - j') =
          (j' + 1) :: List.range' (j' + 2) (n - 2 - j') := by
        rw [show n - 1 - j' = (n - 2 - j') + 1 from by omega, List.range'_succ]
        congr 1
        · omega
        · congr 1
          omega
      rw [e1, e2]
      exact fallback_scan_first_ok try_url n (counter % n) v _ _ _ _
        (fun q hq => by
          have hq' := List.mem_range'_1.mp hq
          exact hprev q (by omega))
        hok
  refine ⟨hrot, ?_, ?_⟩
  · rintro ⟨i, hi, hok⟩
    obtain ⟨v₀, hv₀⟩ := (is_err_false_iff _).mp hok
    have hc : counter % n < n := Nat.mod_lt _ hn
    have harg : (counter % n + (i + n - counter % n) % n) % n = i := by
      rw [Nat.add_mod_mod,
        show counter % n + (i + n - counter % n) = i + n from by omega,
        Nat.add_mod_right]
      exact Nat.mod_eq_of_lt hi
    have hPj : is_err (try_url ((counter % n + (i + n - counter % n) % n) % n)) = false := by
      rw [harg, hv₀]
      rfl
    have hex : ∃ j, is_err (try_url ((counter % n + j) % n)) = false :=
      ⟨(i + n - counter % n) % n, hPj⟩
    have hjlt : Nat.find hex < n := by
      have hle : Nat.find hex ≤ (i + n - counter % n) % n := Nat.find_min' hex hPj
      have hm : (i + n - counter % n) % n < n := Nat.mod_lt _ hn
      omega
    obtain ⟨v, hv⟩ := (is_err_false_iff _).mp (Nat.find_spec hex)
    exact ⟨v, hrot (Nat.find hex) v hjlt
      (fun k hk => by
        have := Nat.find_min hex hk
        simpa using this)
      hv⟩
  · intro hall
    have hc : counter % n < n := Nat.mod_lt _ hn
    obtain ⟨e0, he0⟩ := (is_err_true_iff _).mp (hall (counter % n) hc)
    rcases Nat.lt_or_ge n 2 with h2 | h2
    · have hn1 : n = 1 := by omega
      subst hn1
      refine ⟨e0, ?_, ?_⟩
      · have : (counter % 1 + (1 - 1)) % 1 = counter % 1 := by omega
        rw [this, he0]
      · rw [hcompute, he0]
        have hempty : List.range' 1 (1 - 1) = [] := by decide
        rw [hempty]
        have h6 : (counter % 1 + (1 - 1)) % 1 = counter % 1 := by omega
        rw [h6]
        rfl
    · have hlast : (counter % n + (n - 1)) % n < n := Nat.mod_lt _ hn
      obtain ⟨e, he⟩ := (is_err_true_iff _).mp (hall _ hlast)
      refine ⟨e, he, ?_⟩
      rw [hcompute, he0]
      have hsplit : List.range' 1 (n - 1) = List.range' 1 (n - 2) ++ [n - 1] := by
        have h7 : n - 1 = (n - 2) + 1 := by omega
        rw [h7, List.range'_1_concat]
        congr 1
        simp
        omega
      rw [hsplit]
      exact fallback_scan_all_err try_url n (counter % n) _ _ _ _
        (fun q hq => by
          have hq' := List.mem_range'_1.mp hq
          exact hall _ (Nat.mod_lt _ hn))
        he

/-- Claim C5, witness: two replicas, replica 0 down and replica 1 healthy,
counter 0 and a valid input: the call tried in rotation order succeeds, the
success case applies, and with both replicas down the all-failed error names
replica `(0 + 1) % 2 = 1`. -/
theorem c5_failover_witness :
    ((∃ i, i < 2 ∧
        is_err ((fun i => if i = 1 then Except.ok [(2 : ℚ)] else Except.error "down") i) = false) →
      ∃ v, compute_embedding_multi
        (fun i => if i = 1 then Except.ok [(2 : ℚ)] else Except.error "down") 2 0 "abc" =
        Except.ok v) ∧
    ((∀ i, i < 2 →
        is_err ((fun _ => (Except.error "down" : Except String (List ℚ))) i) = true) →
      ∃ e, (fun _ => (Except.error "down" : Except String (List ℚ)))
          ((0 % 2 + (2 - 1)) % 2) = Except.error e ∧
        compute_embedding_multi (fun _ => Except.error "down") 2 0 "abc" =
          Except.error (EmbError.allFailed ((0 % 2 + (2 - 1)) % 2) e)) :=
  ⟨(c5_failover (fun i => if i = 1 then Except.ok [(2 : ℚ)] else Except.error "down")
      2 0 "abc" (by decide) (by decide) (by decide)).2.1,
   (c5_failover (fun _ => Except.error "down")
      2 0 "abc" (by decide) (by decide) (by decide)).2.2⟩

theorem add_into_spec : ∀ (init v : List ℚ), v.length = init.length →
    (add_into init v).length = init.length ∧
    ∀ j : Nat, (add_into init v).getD j 0 = init.getD j 0 + v.getD j 0 := by
  intro init
  induction init with
  | nil =>
    intro v hv
    have hv0 : v = [] := List.eq_nil_of_length_eq_zero (by simpa using hv)
    subst hv0
    exact ⟨rfl, fun j => by simp [add_into]⟩
  | cons x xs ih =>
    intro v hv
    rcases v with _ | ⟨y, ys⟩
    · simp at hv
    · have hlen : ys.length = xs.length := by simpa using hv
      have hrec := ih ys hlen
      have hstep : add_into (x :: xs) (y :: ys) = (x + y) :: add_into xs ys := by
        simp [add_into]
      constructor
      · rw [hstep]
        simp [hrec.1]
      · intro j
        cases j with
        | zero => rw [hstep]; simp
        | succ j' =>
          rw [hstep]
          simpa using hrec.2 j'

theorem fold_add_into_spec : ∀ (vs : List (List ℚ)) (init : List ℚ),
    (∀ v ∈ vs, v.length = init.length) →
    (vs.foldl add_into init).length = init.length ∧
    ∀ j : Nat, (vs.foldl add_into init).getD j 0 =
      init.getD j 0 + (vs.map fun v => v.getD j 0).sum := by
  intro vs
  induction vs with
  | nil =>
    intro init _
    exact ⟨rfl, fun j => by simp⟩
  | cons v rest ih =>
    intro init hlen
    have hv : v.length = init.length := hlen v (by simp)
    have hspec := add_into_spec init v hv
    have hrest : ∀ w ∈ rest, w.length = (add_into init v).length := by
      intro w hw
      rw [hspec.1]
      exact hlen w (by simp [hw])
    have hih := ih (add_into init v) hrest
    constructor
    · rw [List.foldl_cons, hih.1, hspec.1]
    · intro j
      rw [List.foldl_cons, hih.2 j, hspec.2 j]
      simp [add_assoc]

theorem getD_map_div (l : List ℚ) (c : ℚ) :
    ∀ j, (l.map fun x => x / c).getD j 0 = l.getD j 0 / c := by
  induction l with
  | nil => intro j; simp
  | cons x xs ih =>
    intro j
    cases j with
    | zero => simp
    | succ j' => simpa using ih j'

theorem getD_replicate_zero : ∀ (d j : Nat), (List.replicate d (0 : ℚ)).getD j 0 = 0 := by
  intro d
  induction d with
  | zero => intro j; simp
  | succ d' ih =>
    intro j
    cases j with
    | zero => simp [List.replicate_succ]
    | succ j' => simpa [List.replicate_succ] using ih j'

theorem mean_pool_spec (dimension : Nat) (vs : List (List ℚ))
    (hlen : ∀ v ∈ vs, v.length = dimension) :
    (mean_pool dimension vs).length = dimension ∧
    ∀ j, j < dimension → (mean_pool dimension vs).getD j 0 =
      (vs.map fun v => v.getD j 0).sum / (vs.length : ℚ) := by
  have hl : ∀ v ∈ vs, v.length = (List.replicate dimension (0 : ℚ)).length := by
    intro v hv
    simp [hlen v hv]
  have hf := fold_add_into_spec vs (List.replicate dimension 0) hl
  constructor
  · simp only [mean_pool, List.length_map, hf.1, List.length_replicate]
  · intro j _
    simp only [mean_pool]
    rw [getD_map_div, hf.2 j, getD_replicate_zero]
    simp

theorem embed_chunks_ok (embed : String → Except String (List ℚ)) (dimension : Nat)
    (hd : 0 < dimension) :
    ∀ {chunks : List String} {vs : List (List ℚ)},
      List.Forall₂ (fun c v => embed c = Except.ok v) chunks vs →
      (∀ v ∈ vs, v.length = dimension) →
      embed_chunks embed dimension chunks = Except.ok vs := by
  intro chunks vs hf
  induction hf with
  | nil => intro _; rfl
  | @cons c v cs vrest h1 h2 ih =>
    intro hlen
    have hvlen : v.length = dimension := hlen v (by simp)
    have hvne : v.isEmpty = false := by
      cases v with
      | nil =>
        simp at hvlen
        omega
      | cons _ _ => rfl
    simp only [embed_chunks, h1, hvne]
    rw [if_neg (by simp), if_neg (by simp [hvlen]), ih (fun w hw => hlen w (by simp [hw]))]

/-! #### Claim C6 -/

/-- Claim C6: when the estimated token count (UTF-8 length divided by 4)
fits into `max_tokens`, `compute_chunked_embedding` is exactly
`compute_embedding` on the whole text; otherwise, whenever the chunker
splits the text into chunks whose backend embeddings are `v₁ … vₖ` of the
provider's dimension, it returns the component-wise arithmetic mean
`(Σ vᵢ)/k` (for `k = 1` the code delegates to `compute_embedding` on the
single chunk, which equals the mean of one vector). -/
theorem c6_chunked_mean (embed : String → Except String (List ℚ)) (dimension : Nat)
    (chunk_text : String → Nat → Nat → List String) (content : String) (max_tokens : Nat) :
    (rust_len content / 4 ≤ max_tokens →
      compute_chunked_embedding embed dimension chunk_text content max_tokens =
        embed content) ∧
    (∀ chunks vs, ¬ rust_len content / 4 ≤ max_tokens →
      chunk_text content max_tokens (chunk_overlap max_tokens) = chunks →
      chunks ≠ [] →
      List.Forall₂ (fun c v => embed c = Except.ok v) chunks vs →
      (∀ v ∈ vs, v.length = dimension) →
      0 < dimension →
      ∃ m, compute_chunked_embedding embed dimension chunk_text content max_tokens =
          Except.ok m ∧
        m.length = dimension ∧
        ∀ j, j < dimension →
          m.getD j 0 = (vs.map fun v => v.getD j 0).sum / (vs.length : ℚ)) := by
  constructor
  · intro hfit
    simp [compute_chunked_embedding, hfit]
  · intro chunks vs hbig hch hne hf hlen hd
    have hred : compute_chunked_embedding embed dimension chunk_text content max_tokens =
        (if chunks.isEmpty then Except.error "No chunks generated from content"
         else if chunks.length = 1 then embed chunks.head!
         else match embed_chunks embed dimension chunks with
          | Except.error e => Except.error e
          | Except.ok ce => Except.ok (mean_pool dimension ce)) := by
      simp only [compute_chunked_embedding, hch]
      rw [if_neg hbig]
    cases chunks with
    | nil => exact absurd rfl hne
    | cons c rest =>
      cases rest with
      | nil =>
        cases hf with
        | @cons _ v _ vrest h1 h2 =>
          cases h2
          refine ⟨v, ?_, hlen v (by simp), ?_⟩
          · rw [hred]
            simpa using h1
          · intro j hj
            simp
      | cons c2 rest2 =>
        cases hf with
        | @cons _ v _ vrest h1 h2 =>
          have hlen2 : (c :: c2 :: rest2).length ≠ 1 := by simp
          have hok := embed_chunks_ok embed dimension hd
            (List.Forall₂.cons h1 h2) hlen
          refine ⟨mean_pool dimension (v :: vrest), ?_, ?_⟩
          · rw [hred, if_neg (by simp), if_neg hlen2, hok]
          · exact mean_pool_spec dimension (v :: vrest) hlen

/-- Claim C6, witness: a 9-byte text with `max_tokens = 1` is split into two
chunks embedding to `[1, 3]` and `[2, 5]`, and the result is their mean
`[3/2, 4]`; the fitting case delegates for `max_tokens = 3`. -/
theorem c6_chunked_mean_witness :
    compute_chunked_embedding
      (fun s => if s = "aa" then Except.ok [(1 : ℚ), 3]
        else if s = "bb" then Except.ok [(2 : ℚ), 5] else Except.error "x")
      2 (fun _ _ _ => ["aa", "bb"]) "abcdefghi" 3 =
      (fun s => if s = "aa" then Except.ok [(1 : ℚ), 3]
        else if s = "bb" then Except.ok [(2 : ℚ), 5] else Except.error "x") "abcdefghi" ∧
    ∃ m, compute_chunked_embedding
        (fun s => if s = "aa" then Except.ok [(1 : ℚ), 3]
          else if s = "bb" then Except.ok [(2 : ℚ), 5] else Except.error "x")
        2 (fun _ _ _ => ["aa", "bb"]) "abcdefghi" 1 = Except.ok m ∧
      m.length = 2 ∧
      ∀ j, j < 2 →
        m.getD j 0 = (([[(1 : ℚ), 3], [2, 5]].map fun v => v.getD j 0).sum / (2 : ℚ)) :=
  ⟨(c6_chunked_mean _ 2 _ "abcdefghi" 3).1 (by decide),
   by
    have h := (c6_chunked_mean
      (fun s => if s = "aa" then Except.ok [(1 : ℚ), 3]
        else if s = "bb" then Except.ok [(2 : ℚ), 5] else Except.error "x")
      2 (fun _ _ _ => ["aa", "bb"]) "abcdefghi" 1).2
      ["aa", "bb"] [[(1 : ℚ), 3], [2, 5]] (by decide) rfl (by decide)
      (List.Forall₂.cons rfl (List.Forall₂.cons rfl List.Forall₂.nil))
      (by
        intro v hv
        rcases List.mem_cons.mp hv with rfl | hv2
        · rfl
        · rcases List.mem_cons.mp hv2 with rfl | hv3
          · rfl
          · simp at hv3)
      (by decide)
    obtain ⟨m, hm1, hm2, hm3⟩ := h
    exact ⟨m, hm1, hm2, fun j hj => by rw [hm3 j hj]; norm_num⟩⟩

/-! #### Claim C9 -/

/-- Claim C9, counterexample: the TEI provider has no minimum-length check.
For the two-character input "ab" (2 bytes after trimming, hence shorter than
3 characters), `TeiEmbeddingProvider::compute_embedding` issues a backend
request with prompt "ab" and returns the backend's vector instead of failing
with an empty-input error. -/
theorem c9_tei_no_min_length :
    rust_trim "ab" = "ab" ∧
    rust_len (rust_trim "ab") < 3 ∧
    (compute_embedding_tei (fun _ => Except.ok [1]) "ab").2 = ["ab"] ∧
    (compute_embedding_tei (fun _ => Except.ok [1]) "ab").1 = Except.ok [1] := by
  refine ⟨by decide, by decide, by decide, rfl⟩

/-- Claim C9, amended: the Local and MultiOllama providers fail without any
backend request whenever the trimmed input is empty or shorter than 3 bytes
(for the multi provider this is expressed as: the result is an error and is
independent of the replicas' behaviour); the TEI provider performs only the
emptiness check, so its request-free failure is guaranteed only for inputs
that trim to the empty string. -/
theorem c9_empty_input_checks (backend : String → Except String (List ℚ))
    (try_url₁ try_url₂ : ReplicaBehaviour) (n counter : Nat) (content : String)
    (h : rust_trim content = "" ∨ rust_len (rust_trim content) < 3) :
    (is_err (compute_embedding_local backend content).1 = true ∧
      (compute_embedding_local backend content).2 = []) ∧
    (is_err (compute_embedding_multi try_url₁ n counter content) = true ∧
      compute_embedding_multi try_url₁ n counter content =
        compute_embedding_multi try_url₂ n counter content) ∧
    (rust_trim content = "" →
      is_err (compute_embedding_tei backend content).1 = true ∧
      (compute_embedding_tei backend content).2 = []) := by
  by_cases he : (rust_trim content).isEmpty
  · refine ⟨?_, ?_, ?_⟩
    · simp [compute_embedding_local, he, is_err]
    · constructor
      · simp [compute_embedding_multi, he, is_err]
      · simp [compute_embedding_multi, he]
    · intro _
      simp [compute_embedding_tei, he, is_err]
  · have hlen : rust_len (rust_trim content) < 3 := by
      rcases h with h | h
      · exact absurd ((String.isEmpty_iff _).mpr h) he
      · exact h
    refine ⟨?_, ?_, ?_⟩
    · simp [compute_embedding_local, he, hlen, is_err]
    · constructor
      · simp [compute_embedding_multi, he, hlen, is_err]
      · simp [compute_embedding_multi, he, hlen]
    · intro h0
      exact absurd ((String.isEmpty_iff _).mpr h0) he

/-- Claim C9, witness for the amended theorem: the one-character input "x"
is rejected by the Local and MultiOllama providers regardless of backend
behaviour. -/
theorem c9_empty_input_checks_witness :
    (is_err (compute_embedding_local (fun _ => Except.ok [1]) "x").1 = true ∧
      (compute_embedding_local (fun _ => Except.ok [1]) "x").2 = []) ∧
    (is_err (compute_embedding_multi (fun _ => Except.ok [1]) 1 0 "x") = true ∧
      compute_embedding_multi (fun _ => Except.ok [1]) 1 0 "x" =
        compute_embedding_multi (fun _ => Except.error "down") 1 0 "x") ∧
    (rust_trim "x" = "" →
      is_err (compute_embedding_tei (fun _ => Except.ok [1]) "x").1 = true ∧
      (compute_embedding_tei (fun _ => Except.ok [1]) "x").2 = []) :=
  c9_empty_input_checks (fun _ => Except.ok [1]) (fun _ => Except.ok [1])
    (fun _ => Except.error "down") 1 0 "x" (Or.inr (by decide))

/-! #### Claim C10 -/

/-- Claim C10: `generate_doc_id` is a deterministic function of the file
hash and the whole-second epoch timestamp; every pre-epoch `updated_at`
yields timestamp 0, so for a fixed file hash any two pre-epoch times produce
the identical document id. -/
theorem c10_generate_doc_id_pre_epoch (blake3_hex : String → String)
    (file_hash : String) (t₁ t₂ : RustSystemTime) (h₁ : t₁ < 0) (h₂ : t₂ < 0) :
    generate_doc_id blake3_hex file_hash t₁ = generate_doc_id blake3_hex file_hash t₂ ∧
    ∀ s₁ s₂ : RustSystemTime, epoch_secs s₁ = epoch_secs s₂ →
      generate_doc_id blake3_hex file_hash s₁ = generate_doc_id blake3_hex file_hash s₂ := by
  constructor
  · simp [generate_doc_id, epoch_secs, h₁, h₂]
  · intro s₁ s₂ h
    simp [generate_doc_id, h]

/-- Claim C10, witness: two distinct pre-epoch timestamps produce the same
document id for the same file hash. -/
theorem c10_generate_doc_id_pre_epoch_witness :
    (-5 : Int) < 0 ∧ (-7 : Int) < 0 ∧
    generate_doc_id (fun s => s) "abc123" (-5) = generate_doc_id (fun s => s) "abc123" (-7) :=
  ⟨by decide, by decide,
    (c10_generate_doc_id_pre_epoch (fun s => s) "abc123" (-5) (-7)
      (by decide) (by decide)).1⟩
